import Mathlib

/-!
Verification development for the website-clone agent core
(`agent.js`: `extractJsonObject`, directive classification, the
`WebsiteCloneAgent` constructor and `run` loop, and the tool registry).

The JavaScript source is embedded shallowly:

* JSON values are the mutual inductive `JsonValue`/`JsonList`/`JsonFields`;
  `JSON.parse` is embedded as `Json.parseChars`, a recursive-descent parser
  over `List Char` following the JSON grammar implemented by `JSON.parse`
  (ECMA-404 object/array/string/number/literal syntax, whitespace limited
  to space, tab, LF, CR, duplicate object keys overwriting in place).
  JavaScript numbers are kept as their source lexeme (no claim depends on
  numeric values beyond zero-ness, which is computed from the lexeme); lone
  surrogate `\u` escapes, not representable as Lean `Char`, decode to
  U+FFFD (no claim touches them).
* `String.prototype.trim`, `indexOf`, `lastIndexOf`, `slice` and the fence
  regex `/```[a-zA-Z]*\n([\s\S]*?)\n```/` are embedded as executable
  functions over `List Char` with JavaScript first-match semantics.
* The model, the tool implementations and the filesystem are the external
  collaborators of the spec; they enter as function parameters (a scripted
  model indexed by invocation count, tool behaviours behind the registry,
  an oracle for `fs.existsSync`/`fileToDataUrl`).
-/

mutual

/-- A JavaScript JSON value as produced by `JSON.parse`.  Numbers keep their
source lexeme. -/
inductive JsonValue where
  | null : JsonValue
  | bool : Bool → JsonValue
  | num : String → JsonValue
  | str : String → JsonValue
  | arr : JsonList → JsonValue
  | obj : JsonFields → JsonValue
deriving DecidableEq, Repr

/-- The elements of a JSON array, in order. -/
inductive JsonList where
  | nil : JsonList
  | cons : JsonValue → JsonList → JsonList
deriving DecidableEq, Repr

/-- The key/value properties of a JSON object, in insertion order. -/
inductive JsonFields where
  | nil : JsonFields
  | cons : String → JsonValue → JsonFields → JsonFields
deriving DecidableEq, Repr

end

/-- Append one element at the end of a `JsonList`. -/
def JsonList.snoc : JsonList → JsonValue → JsonList
  | .nil, v => .cons v .nil
  | .cons h t, v => .cons h (t.snoc v)

/-- View a `JsonList` as a Lean list. -/
def JsonList.toList : JsonList → List JsonValue
  | .nil => []
  | .cons h t => h :: t.toList

/-- Build a `JsonList` from a Lean list. -/
def JsonList.ofList : List JsonValue → JsonList
  | [] => .nil
  | h :: t => .cons h (JsonList.ofList t)

/-- Property lookup on object fields (keys are unique after parsing). -/
def JsonFields.lookupField : JsonFields → String → Option JsonValue
  | .nil, _ => none
  | .cons k' v' t, k => if k' = k then some v' else t.lookupField k

/-- JavaScript property access `v[k]`: defined properties exist only on
objects (on every other JSON value the named properties used by the agent
are `undefined`, which we model as `none`). -/
def getField (v : JsonValue) (k : String) : Option JsonValue :=
  match v with
  | .obj fields => fields.lookupField k
  | _ => none

namespace Json

/-- The whitespace accepted by `JSON.parse` between tokens. -/
def isJsonWs (c : Char) : Bool :=
  c = ' ' || c = '\t' || c = '\n' || c = '\r'

/-- Skip JSON inter-token whitespace. -/
def skipWs (l : List Char) : List Char := l.dropWhile isJsonWs

def hexVal (c : Char) : Option Nat :=
  if '0' ≤ c ∧ c ≤ '9' then some (c.toNat - '0'.toNat)
  else if 'a' ≤ c ∧ c ≤ 'f' then some (c.toNat - 'a'.toNat + 10)
  else if 'A' ≤ c ∧ c ≤ 'F' then some (c.toNat - 'A'.toNat + 10)
  else none

/-- Decode the four hex digits of a `\uXXXX` escape. -/
def hex4 (a b c d : Char) : Option Nat := do
  let x ← hexVal a; let y ← hexVal b; let z ← hexVal c; let w ← hexVal d
  pure (((x * 16 + y) * 16 + z) * 16 + w)

/-- String body parser (input starts after the opening quote).  Returns the
decoded string and the input after the closing quote.  Unescaped control
characters are rejected, exactly as `JSON.parse` does.  A valid surrogate
pair of `\u` escapes combines into one scalar; a lone surrogate becomes
U+FFFD (see the header comment).  `fuel` bounds the recursion; every
recursive call consumes at least one input character, so `length + 1`
always suffices. -/
def parseStrAux : Nat → List Char → List Char → Option (String × List Char)
  | 0, _, _ => none
  | _, _, [] => none
  | fuel + 1, acc, c :: r =>
    if c = '"' then some (String.mk acc.reverse, r)
    else if c = '\\' then
      match r with
      | [] => none
      | e :: r2 =>
        if e = '"' then parseStrAux fuel ('"' :: acc) r2
        else if e = '\\' then parseStrAux fuel ('\\' :: acc) r2
        else if e = '/' then parseStrAux fuel ('/' :: acc) r2
        else if e = 'b' then parseStrAux fuel (Char.ofNat 8 :: acc) r2
        else if e = 'f' then parseStrAux fuel (Char.ofNat 12 :: acc) r2
        else if e = 'n' then parseStrAux fuel ('\n' :: acc) r2
        else if e = 'r' then parseStrAux fuel ('\r' :: acc) r2
        else if e = 't' then parseStrAux fuel ('\t' :: acc) r2
        else if e = 'u' then
          match r2 with
          | h1 :: h2 :: h3 :: h4 :: r3 =>
            match hex4 h1 h2 h3 h4 with
            | none => none
            | some n =>
              if 0xD800 ≤ n ∧ n ≤ 0xDBFF then
                -- high surrogate: try to combine with a following \uDC00-\uDFFF
                match r3 with
                | '\\' :: 'u' :: k1 :: k2 :: k3 :: k4 :: r4 =>
                  (match hex4 k1 k2 k3 k4 with
                   | some m =>
                     if 0xDC00 ≤ m ∧ m ≤ 0xDFFF then
                       parseStrAux fuel
                         (Char.ofNat (0x10000 + (n - 0xD800) * 0x400 + (m - 0xDC00)) :: acc) r4
                     else parseStrAux fuel (Char.ofNat 0xFFFD :: acc) r3
                   | none => parseStrAux fuel (Char.ofNat 0xFFFD :: acc) r3)
                | _ => parseStrAux fuel (Char.ofNat 0xFFFD :: acc) r3
              else if 0xDC00 ≤ n ∧ n ≤ 0xDFFF then
                parseStrAux fuel (Char.ofNat 0xFFFD :: acc) r3
              else
                parseStrAux fuel (Char.ofNat n :: acc) r3
          | _ => none
        else none
    else if c.toNat < 0x20 then none
    else parseStrAux fuel (c :: acc) r

/-- Parse a JSON string body, input positioned after the opening quote. -/
def parseStr (l : List Char) : Option (String × List Char) :=
  parseStrAux (l.length + 1) [] l

/-- Split off the leading digits `0-9`*. -/
def takeDigits (l : List Char) : List Char × List Char :=
  (l.takeWhile Char.isDigit, l.dropWhile Char.isDigit)

/-- Parse a JSON number token: `-? (0 | [1-9][0-9]*) (. [0-9]+)? ([eE][+-]?[0-9]+)?`.
Returns the lexeme and the rest of the input. -/
def parseNum (l : List Char) : Option (JsonValue × List Char) :=
  let (sign, l1) := match l with
    | '-' :: r => (['-'], r)
    | _ => (([] : List Char), l)
  match l1 with
  | [] => none
  | d :: r =>
    if d = '0' then
      numTail sign ['0'] r
    else if d.isDigit then
      let (ds, r2) := takeDigits r
      numTail sign (d :: ds) r2
    else none
where
  /-- Optional fraction and exponent after the integer part. -/
  numTail (sign intPart : List Char) (l : List Char) : Option (JsonValue × List Char) :=
    let (fracPart, l2) : List Char × List Char :=
      match l with
      | '.' :: r =>
        let (ds, r2) := takeDigits r
        if ds.isEmpty then (['!'], l)   -- marker: invalid fraction
        else ('.' :: ds, r2)
      | _ => ([], l)
    if fracPart = ['!'] then none
    else
      let expRes : Option (List Char × List Char) :=
        match l2 with
        | e :: r =>
          if e = 'e' ∨ e = 'E' then
            let (esign, r2) : List Char × List Char :=
              match r with
              | '+' :: rr => (['+'], rr)
              | '-' :: rr => (['-'], rr)
              | _ => ([], r)
            let (ds, r3) := takeDigits r2
            if ds.isEmpty then none
            else some (e :: (esign ++ ds), r3)
          else some ([], l2)
        | [] => some ([], l2)
      match expRes with
      | none => none
      | some (expPart, rest) =>
        some (.num (String.mk (sign ++ intPart ++ fracPart ++ expPart)), rest)

/-- Insert a key into an object, overwriting an existing key in place
(JavaScript duplicate-key semantics of `JSON.parse`). -/
def objInsert (k : String) (v : JsonValue) : JsonFields → JsonFields
  | .nil => .cons k v .nil
  | .cons k' v' t => if k' = k then .cons k' v t else .cons k' v' (objInsert k v t)

mutual

/-- Parse one JSON value.  Input is positioned at the first character of the
value (no leading whitespace).  `fuel` bounds the recursion depth; callers
supply `length + 1`, which is always sufficient since every recursive call
consumes at least one character. -/
def parseVal : Nat → List Char → Option (JsonValue × List Char)
  | 0, _ => none
  | fuel + 1, l =>
    match l with
    | '{' :: r =>
      (match skipWs r with
       | '}' :: r2 => some (.obj .nil, r2)
       | r2 => parseMembers fuel r2 .nil)
    | '[' :: r =>
      (match skipWs r with
       | ']' :: r2 => some (.arr .nil, r2)
       | r2 => parseElems fuel r2 .nil)
    | '"' :: r => (parseStr r).map (fun p => (.str p.1, p.2))
    | 't' :: 'r' :: 'u' :: 'e' :: r => some (.bool true, r)
    | 'f' :: 'a' :: 'l' :: 's' :: 'e' :: r => some (.bool false, r)
    | 'n' :: 'u' :: 'l' :: 'l' :: r => some (.null, r)
    | c :: _ => if c = '-' ∨ c.isDigit then parseNum l else none
    | [] => none

/-- Parse `string ws : ws value ws (, ws ...)* }` object members; input is
positioned at the first character of a key. -/
def parseMembers : Nat → List Char → JsonFields → Option (JsonValue × List Char)
  | 0, _, _ => none
  | fuel + 1, l, acc =>
    match l with
    | '"' :: r =>
      (match parseStr r with
       | some (k, r2) =>
         (match skipWs r2 with
          | ':' :: r3 =>
            (match parseVal fuel (skipWs r3) with
             | some (v, r4) =>
               let acc' := objInsert k v acc
               (match skipWs r4 with
                | ',' :: r5 => parseMembers fuel (skipWs r5) acc'
                | '}' :: r5 => some (.obj acc', r5)
                | _ => none)
             | none => none)
          | _ => none)
       | none => none)
    | _ => none

/-- Parse `value ws (, ws ...)* ]` array elements; input is positioned at
the first character of an element. -/
def parseElems : Nat → List Char → JsonList → Option (JsonValue × List Char)
  | 0, _, _ => none
  | fuel + 1, l, acc =>
    match parseVal fuel l with
    | some (v, r) =>
      (match skipWs r with
       | ',' :: r2 => parseElems fuel (skipWs r2) (acc.snoc v)
       | ']' :: r2 => some (.arr (acc.snoc v), r2)
       | _ => none)
    | none => none

end

/-- `JSON.parse` on a character list: optional whitespace, one value,
optional whitespace, end of input. -/
def parseChars (l : List Char) : Option JsonValue :=
  match parseVal (l.length + 1) (skipWs l) with
  | some (v, rest) => if (skipWs rest).isEmpty then some v else none
  | none => none

/-- `JSON.parse` on a string. -/
def parse (s : String) : Option JsonValue := parseChars s.data

end Json

/-! ## `extractJsonObject`: trim, fenced-block stripping, brace fallback -/

/-- The whitespace removed by `String.prototype.trim` (ECMAScript
WhiteSpace ∪ LineTerminator). -/
def isJsWs (c : Char) : Bool :=
  c.toNat = 0x9 || c.toNat = 0xA || c.toNat = 0xB || c.toNat = 0xC || c.toNat = 0xD ||
  c.toNat = 0x20 || c.toNat = 0xA0 || c.toNat = 0x1680 ||
  (0x2000 ≤ c.toNat && c.toNat ≤ 0x200A) ||
  c.toNat = 0x2028 || c.toNat = 0x2029 || c.toNat = 0x202F || c.toNat = 0x205F ||
  c.toNat = 0x3000 || c.toNat = 0xFEFF

/-- Drop trim-whitespace from the front. -/
def trimLeftChars (l : List Char) : List Char := l.dropWhile isJsWs

/-- Drop trim-whitespace from the back. -/
def trimRightChars (l : List Char) : List Char := (l.reverse.dropWhile isJsWs).reverse

/-- `String.prototype.trim` on a character list. -/
def jsTrim (l : List Char) : List Char := trimRightChars (trimLeftChars l)

/-- `startsWith pat l`: does `l` begin with `pat`? -/
def startsWith : List Char → List Char → Bool
  | [], _ => true
  | _ :: _, [] => false
  | p :: ps, c :: cs => p == c && startsWith ps cs

/-- Does `pat` occur as a contiguous substring of `l`? -/
def hasSub (pat : List Char) : List Char → Bool
  | [] => startsWith pat []
  | l@(_ :: t) => startsWith pat l || hasSub pat t

/-- ASCII letter, the character class `[a-zA-Z]` of the fence regex. -/
def isAsciiAlpha (c : Char) : Bool :=
  ('a' ≤ c && c ≤ 'z') || ('A' ≤ c && c ≤ 'Z')

/-- The closing-fence pattern `"\n```"`. -/
def nlTicks : List Char := ['\n', '`', '`', '`']

/-- Find the first occurrence of `"\n```"`; return the content before it and
the input after it.  This is the non-greedy `([\s\S]*?)\n``` ` part of the
fence regex. -/
def findClose : List Char → Option (List Char × List Char)
  | [] => none
  | l@(c :: t) =>
    if startsWith nlTicks l then some ([], l.drop 4)
    else (findClose t).map (fun p => (c :: p.1, p.2))

/-- Try to match the fence regex anchored at the head of `l`:
three backticks, a greedy `[a-zA-Z]*` language tag, a newline, then the
non-greedy body up to the first `"\n```"`.  Returns the captured body. -/
def fenceTryAt (l : List Char) : Option (List Char) :=
  if startsWith ['`', '`', '`'] l then
    match (l.drop 3).dropWhile isAsciiAlpha with
    | c :: r3 => if c = '\n' then (findClose r3).map Prod.fst else none
    | [] => none
  else none

/-- First match of the fence regex `/```[a-zA-Z]*\n([\s\S]*?)\n```/` in `l`
(JavaScript leftmost-match semantics): the captured group of the leftmost
position at which the whole pattern matches. -/
def fenceFind : List Char → Option (List Char)
  | [] => none
  | l@(_ :: t) =>
    match fenceTryAt l with
    | some inner => some inner
    | none => fenceFind t

/-- `indexOf c` on a character list (`none` for JavaScript's `-1`). -/
def idxOf? (c : Char) : List Char → Option Nat
  | [] => none
  | x :: t => if x = c then some 0 else (idxOf? c t).map (· + 1)

/-- `lastIndexOf c` on a character list (`none` for JavaScript's `-1`). -/
def lastIdxOf? (c : Char) : List Char → Option Nat
  | [] => none
  | x :: t =>
    match lastIdxOf? c t with
    | some i => some (i + 1)
    | none => if x = c then some 0 else none

/-- `extractJsonObject` from `agent.js`, on a character list:

```
const extractJsonObject = (text) => {
  if (!text || typeof text !== "string") return null;
  let candidate = text.trim();
  const fenceMatch = candidate.match(/```[a-zA-Z]*\n([\s\S]*?)\n```/);
  if (fenceMatch) candidate = fenceMatch[1].trim();
  try { return JSON.parse(candidate); } catch {}
  const start = candidate.indexOf("{");
  const end = candidate.lastIndexOf("}");
  if (start !== -1 && end !== -1 && end > start) {
    const sub = candidate.slice(start, end + 1);
    try { return JSON.parse(sub); } catch {}
  }
  return null;
};
```

(`!text` is true exactly for the empty string once `text` is a string.) -/
def extractJsonChars (t : List Char) : Option JsonValue :=
  if t.isEmpty then none
  else
    let cand0 := jsTrim t
    let candidate :=
      match fenceFind cand0 with
      | some inner => jsTrim inner
      | none => cand0
    match Json.parseChars candidate with
    | some v => some v
    | none =>
      match idxOf? '{' candidate, lastIdxOf? '}' candidate with
      | some s, some e =>
        if s < e then Json.parseChars ((candidate.drop s).take (e + 1 - s))
        else none
      | _, _ => none

/-- `extractJsonObject` on a string. -/
def extractJsonObject (s : String) : Option JsonValue := extractJsonChars s.data

/-! ## Truthiness and directive classification -/

/-- Is the numeric value of a JSON number lexeme zero?  (The mantissa,
ignoring sign, decimal point and exponent, is all zeros.) -/
def numIsZero (lex : String) : Bool :=
  (lex.data.takeWhile (fun c => c ≠ 'e' ∧ c ≠ 'E')).all
    (fun c => c = '0' ∨ c = '-' ∨ c = '.')

/-- JavaScript truthiness of a JSON value (`NaN` cannot arise from
`JSON.parse`). -/
def truthy : JsonValue → Bool
  | .null => false
  | .bool b => b
  | .num lex => !(numIsZero lex)
  | .str s => !s.isEmpty
  | .arr _ => true
  | .obj _ => true

/-- The test `json && json.final === true` of the run loop. -/
def isFinalDirective (json : Option JsonValue) : Bool :=
  match json with
  | some v => truthy v && decide (getField v "final" = some (JsonValue.bool true))
  | none => false

/-- The test `json && json.tool` of the run loop; returns the (truthy)
`tool` property value when the test passes. -/
def toolRequestOf (json : Option JsonValue) : Option JsonValue :=
  match json with
  | some v =>
    if truthy v then
      match getField v "tool" with
      | some tv => if truthy tv then some tv else none
      | none => none
    else none
  | none => none

/-- The tagged union the spec calls a Directive. -/
inductive Directive where
  | final (j : JsonValue) : Directive
  | toolCall (j : JsonValue) : Directive
  | none : Directive
deriving DecidableEq, Repr

/-- Classification of one parsed (or unparseable) model reply, exactly as
the run loop branches on it: the `final` check first, then the `tool`
check, else no directive. -/
def directiveOfJson (json : Option JsonValue) : Directive :=
  match json with
  | Option.none => .none
  | some v =>
    if isFinalDirective (some v) then .final v
    else
      match toolRequestOf (some v) with
      | some _ => .toolCall v
      | Option.none => .none

/-- Directive Extractor: raw model text to a single Directive. -/
def classifyText (t : List Char) : Directive :=
  directiveOfJson (extractJsonChars t)

/-! ## Serialization used when building tool-result messages -/

/-- Escape one character for a JSON string literal, as `JSON.stringify`
does (named escapes for the common control characters, `\u00XX` for the
rest below 0x20). -/
def escapeJsonChar (c : Char) : String :=
  if c = '"' then "\\\""
  else if c = '\\' then "\\\\"
  else if c = '\n' then "\\n"
  else if c = '\r' then "\\r"
  else if c = '\t' then "\\t"
  else if c.toNat = 0x8 then "\\b"
  else if c.toNat = 0xC then "\\f"
  else if c.toNat < 0x20 then
    let hexDigit (n : Nat) : Char := if n < 10 then Char.ofNat ('0'.toNat + n)
      else Char.ofNat ('a'.toNat + (n - 10))
    "\\u00" ++ String.mk [hexDigit (c.toNat / 16), hexDigit (c.toNat % 16)]
  else String.mk [c]

/-- Escape a string for a JSON string literal. -/
def escapeJsonString (s : String) : String :=
  String.join (s.data.map escapeJsonChar)

/-- `n` spaces. -/
def pad (n : Nat) : String := String.mk (List.replicate n ' ')

mutual

/-- `JSON.stringify(v, null, 2)` at indentation level `ind`. -/
def stringifyVal (ind : Nat) : JsonValue → String
  | .null => "null"
  | .bool true => "true"
  | .bool false => "false"
  | .num lex => lex
  | .str s => "\"" ++ escapeJsonString s ++ "\""
  | .arr .nil => "[]"
  | .arr items =>
    "[\n" ++ String.intercalate ",\n" (stringifyItems ind items) ++ "\n" ++ pad ind ++ "]"
  | .obj .nil => "\x7b\x7d"
  | .obj fields =>
    "\x7b\n" ++ String.intercalate ",\n" (stringifyFields ind fields) ++ "\n" ++ pad ind ++ "\x7d"

def stringifyItems (ind : Nat) : JsonList → List String
  | .nil => []
  | .cons h t => (pad (ind + 2) ++ stringifyVal (ind + 2) h) :: stringifyItems ind t

def stringifyFields (ind : Nat) : JsonFields → List String
  | .nil => []
  | .cons k v t =>
    (pad (ind + 2) ++ "\"" ++ escapeJsonString k ++ "\": " ++ stringifyVal (ind + 2) v)
      :: stringifyFields ind t

end

/-- `JSON.stringify(v, null, 2)`. -/
def stringify2 (v : JsonValue) : String := stringifyVal 0 v

mutual

/-- JavaScript `String(v)` coercion, used for template interpolation and
property-key coercion.  Numbers are approximated by their lexeme (no claim
depends on number-to-string output). -/
def jsToString : JsonValue → String
  | .null => "null"
  | .bool true => "true"
  | .bool false => "false"
  | .num lex => lex
  | .str s => s
  | .arr items => String.intercalate "," (jsToStringItems items)
  | .obj _ => "[object Object]"

def jsToStringItems : JsonList → List String
  | .nil => []
  | .cons h t =>
    (match h with
     | .null => ""
     | _ => jsToString h) :: jsToStringItems t

end

/-! ## Conversation State: messages -/

/-- One part of a multi-part message content array. -/
inductive MsgPart where
  | text (s : String) : MsgPart
  | imageUrl (url : String) : MsgPart
deriving DecidableEq, Repr

/-- A message of the Conversation State, shaped as the agent constructs
them: `SystemMessage`, `HumanMessage` of a plain string, `HumanMessage` of
a `{text: ...}` fields object, `HumanMessage` of a content-part array, and
`AIMessage` holding the model reply content. -/
inductive ModelContent where
  | str (s : String) : ModelContent
  /-- an array of parts; each part records its `text` property if it is an
  object that has one (`none` otherwise) -/
  | parts (ps : List (Option String)) : ModelContent
  /-- any other content shape -/
  | other : ModelContent
deriving DecidableEq, Repr

/-- Flattening of `response.content` to a string, as the run loop does:
a string is itself; an array concatenates the `text` of each object part
(`""` for parts without one); anything else is `""`. -/
def flattenContent : ModelContent → String
  | .str s => s
  | .parts ps => String.join (ps.map (fun p => p.getD ""))
  | .other => ""

inductive Message where
  | system (s : String) : Message
  | humanStr (s : String) : Message
  | humanText (s : String) : Message
  | humanParts (ps : List MsgPart) : Message
  | ai (c : ModelContent) : Message
deriving DecidableEq, Repr

/-! ## Tool registry -/

/-- A tool function: a parameter mapping in, a result value or a thrown
error message out. -/
def ToolFn : Type := JsonValue → Except String JsonValue

/-- Truthiness of a possibly-undefined JavaScript value. -/
def truthyOpt : Option JsonValue → Bool
  | some v => truthy v
  | none => false

/-- The external tool collaborators behind the registry (spec §6), each an
opaque function from its positional argument list (possibly-undefined
values) to a result or a thrown error. -/
structure ExternalTools where
  extractPageData : List (Option JsonValue) → Except String JsonValue
  takeResponsiveScreenshots : List (Option JsonValue) → Except String JsonValue
  read_file : List (Option JsonValue) → Except String JsonValue
  read_many_files : List (Option JsonValue) → Except String JsonValue
  write_file : List (Option JsonValue) → Except String JsonValue
  search_file_content : List (Option JsonValue) → Except String JsonValue
  replace : List (Option JsonValue) → Except String JsonValue
  fileExists : List (Option JsonValue) → Except String JsonValue
  listDirectory : List (Option JsonValue) → Except String JsonValue
  glob : List (Option JsonValue) → Except String JsonValue
  globWithStats : List (Option JsonValue) → Except String JsonValue
  runShellCommand : List (Option JsonValue) → Except String JsonValue

/-- The names of the twelve tools statically registered by
`buildToolRegistry` — the registry object's own properties. -/
def registryNames : List String :=
  ["page.extract", "shots.capture", "files.read", "files.readMany", "files.write",
   "files.search", "files.replace", "files.exists", "fs.list", "fs.glob",
   "fs.globWithStats", "system.run"]

/-- The property names the lookup `this.toolRegistry[tool]` reaches through
the prototype chain of the plain object literal: the members of
`Object.prototype` (including the Annex B accessors). -/
def objectProtoNames : List String :=
  ["constructor", "hasOwnProperty", "isPrototypeOf", "propertyIsEnumerable",
   "toLocaleString", "toString", "valueOf", "__proto__",
   "__defineGetter__", "__defineSetter__", "__lookupGetter__", "__lookupSetter__"]

/-- Observable behaviour of an `Object.prototype` member dispatched as a
tool.  The agent module is strict-mode ESM, so `toolFn(params)` passes
`this = undefined`: `toString` returns `"[object Undefined]"`;
`constructor` is the `Object` function and returns its object argument
unchanged (for a primitive argument it returns a wrapper that serializes
the same way); `isPrototypeOf` returns `false` for a non-object argument
before touching `this`; reading `__proto__` yields `Object.prototype`
itself, which is not callable, so the call throws; every other member
begins with `ToObject(this)` (or an equivalent `this` access) and throws a
`TypeError`.  The `TypeError` texts are those of Node's V8 engine; they
surface only inside corrective-message content. -/
def objectProtoFn (name : String) : ToolFn := fun params =>
  if name = "toString" then .ok (.str "[object Undefined]")
  else if name = "constructor" then .ok params
  else if name = "__proto__" then .error "toolFn is not a function"
  else if name = "toLocaleString" then
    .error "Cannot read properties of undefined (reading 'toString')"
  else if name = "isPrototypeOf" then
    match params with
    | .obj _ => .error "Cannot convert undefined or null to object"
    | .arr _ => .error "Cannot convert undefined or null to object"
    | _ => .ok (.bool false)
  else .error "Cannot convert undefined or null to object"

/-- `buildToolRegistry` from `agent.js`: the fixed name → wrapper mapping.
Each wrapper destructures its named parameters and calls the external
collaborator; `page.extract` and `shots.capture` first throw on a missing
(falsy) `url`.  The registry is a plain object literal and the run loop
reads it with `this.toolRegistry[tool]`, so a name that is no registry
entry but is a member of `Object.prototype` still resolves (to the
inherited member, modelled by `objectProtoFn`); only names found in
neither place yield `undefined`. -/
def buildToolRegistry (ext : ExternalTools) : String → Option ToolFn := fun name =>
  if name = "page.extract" then some (fun params =>
    let url := getField params "url"
    if !truthyOpt url then .error "page.extract requires 'url'"
    else ext.extractPageData [url, getField params "outputDir", getField params "options"])
  else if name = "shots.capture" then some (fun params =>
    let url := getField params "url"
    if !truthyOpt url then .error "shots.capture requires 'url'"
    else ext.takeResponsiveScreenshots [url, getField params "outputDir", getField params "options"])
  else if name = "files.read" then some (fun params =>
    ext.read_file [getField params "filePath", getField params "encoding"])
  else if name = "files.readMany" then some (fun params =>
    ext.read_many_files [getField params "filePaths", getField params "options"])
  else if name = "files.write" then some (fun params =>
    ext.write_file [getField params "filePath", getField params "content", getField params "options"])
  else if name = "files.search" then some (fun params =>
    ext.search_file_content [getField params "filePaths", getField params "pattern", getField params "options"])
  else if name = "files.replace" then some (fun params =>
    ext.replace [getField params "filePath", getField params "searchValue",
      getField params "replaceValue", getField params "options"])
  else if name = "files.exists" then some (fun params =>
    ext.fileExists [getField params "filePath"])
  else if name = "fs.list" then some (fun params =>
    ext.listDirectory [getField params "dirPath", getField params "options"])
  else if name = "fs.glob" then some (fun params =>
    ext.glob [getField params "pattern", getField params "options"])
  else if name = "fs.globWithStats" then some (fun params =>
    ext.globWithStats [getField params "pattern", getField params "options"])
  else if name = "system.run" then some (fun params =>
    ext.runShellCommand [getField params "command", getField params "options"])
  else if name ∈ objectProtoNames then some (objectProtoFn name)
  else none

/-! ## The agent: constructor and run loop -/

/-- The filesystem collaborator used by the `shots.capture` image
attachment: `fssync.existsSync` and `fileToDataUrl` (the latter returns
`none` when reading the file throws, in which case the image is skipped). -/
structure FsOracle where
  existsSync : JsonValue → Bool
  fileToDataUrl : JsonValue → Option String

/-- The model collaborator: invocation number and current Conversation
State in, an assistant reply content or a thrown error out. -/
def ModelFn : Type := Nat → List Message → Except String ModelContent

/-- JavaScript `options.maxSteps || 20` of the constructor: the default
replaces every falsy value (absent, or the number `0`). -/
def jsOrNum (v : Option Int) (d : Int) : Int :=
  match v with
  | none => d
  | some x => if x = 0 then d else x

/-- The `maxSteps` field set by the `WebsiteCloneAgent` constructor from
its options. -/
def WebsiteCloneAgent.maxStepsOf (optMaxSteps : Option Int) : Int :=
  jsOrNum optMaxSteps 20

/-- `params || {}`: the tool-call parameters, defaulting to an empty
object when absent or falsy. -/
def paramsOf (j : JsonValue) : JsonValue :=
  match getField j "params" with
  | some p => if truthy p then p else .obj .nil
  | none => .obj .nil

/-- A field list containing `k` bound to the value of property `k` of `r`
when that property exists, and nothing otherwise (`JSON.stringify` omits
properties whose value is `undefined`). -/
def optField (k : String) (r : JsonValue) : JsonFields → JsonFields :=
  match getField r k with
  | some x => JsonFields.cons k x
  | none => id

/-- One line of the `shots.capture` result summary:
`{ viewport: r.viewport, file: r.file, error: r.error || null }`. -/
def shotSummaryLine (r : JsonValue) : JsonValue :=
  .obj (optField "viewport" r (optField "file" r (.cons "error"
    (match getField r "error" with
     | some e => if truthy e then e else .null
     | none => .null) .nil)))

/-- The `{id, tool, ok: true, resultSummary}` text part of the
`shots.capture` branch (`id` omitted when absent). -/
def shotsSummary (idOpt : Option JsonValue) (toolVal : JsonValue) (shots : JsonList) : JsonValue :=
  .obj ((match idOpt with
         | some i => JsonFields.cons "id" i
         | none => id)
    (.cons "tool" toolVal (.cons "ok" (.bool true)
      (.cons "resultSummary" (.arr (JsonList.ofList (shots.toList.map shotSummaryLine))) .nil))))

/-- The `{id, tool, ok: true, result}` default tool-result payload
(`id` omitted when absent). -/
def defaultSummary (idOpt : Option JsonValue) (toolVal result : JsonValue) : JsonValue :=
  .obj ((match idOpt with
         | some i => JsonFields.cons "id" i
         | none => id)
    (.cons "tool" toolVal (.cons "ok" (.bool true) (.cons "result" result .nil))))

/-- The message appended after a successful tool invocation: for
`shots.capture` with an array result, a multi-part message of the summary
text plus one inlined image per shot whose `file` exists and reads
successfully; otherwise the serialized `{id, tool, ok, result}` text. -/
def toolResultMessage (fs : FsOracle) (idOpt : Option JsonValue)
    (toolVal result : JsonValue) : Message :=
  if toolVal = JsonValue.str "shots.capture" then
    match result with
    | .arr shots =>
      let images := shots.toList.filterMap (fun shot =>
        if truthy shot then
          match getField shot "file" with
          | some f =>
            if truthy f && fs.existsSync f then
              match fs.fileToDataUrl f with
              | some u => some (MsgPart.imageUrl u)
              | none => none
            else none
          | none => none
        else none)
      .humanParts (MsgPart.text (stringify2 (shotsSummary idOpt toolVal shots)) :: images)
    | _ => .humanText (stringify2 (defaultSummary idOpt toolVal result))
  else .humanText (stringify2 (defaultSummary idOpt toolVal result))

/-- Outcome of processing one extracted directive. -/
inductive StepRes where
  /-- a Final directive: terminate, returning this payload -/
  | finish (result : Option JsonValue) (msgs : List Message) : StepRes
  /-- continue looping with the new Conversation State; the flags record
  whether this step carried a tool-call directive, whether a tool function
  was invoked, and whether the step had no directive -/
  | next (msgs : List Message) (toolDir invoked wasNone : Bool) : StepRes
deriving DecidableEq, Repr

/-- Directive handling of one loop iteration of `run`, after the model
reply has been appended (`msgs1`) and the JSON extracted (`json`):
the `final` check, then tool dispatch (unknown tool → corrective message;
thrown tool error → corrective message; success → tool-result message),
else no directive and no message. -/
def processDirective (registry : String → Option ToolFn) (fs : FsOracle)
    (msgs1 : List Message) (json : Option JsonValue) : StepRes :=
  if isFinalDirective json then .finish json msgs1
  else
    match json, toolRequestOf json with
    | some j, some tv =>
      (match registry (jsToString tv) with
       | none =>
         .next (msgs1 ++ [.humanText ("Tool not found: " ++ jsToString tv ++
           ". Please choose a valid tool.")]) true false false
       | some f =>
         (match f (paramsOf j) with
          | .error err =>
            .next (msgs1 ++ [.humanText ("Tool " ++ jsToString tv ++ " failed: " ++ err)])
              true true false
          | .ok result =>
            .next (msgs1 ++ [toolResultMessage fs (getField j "id") tv result]) true true false))
    | _, _ => .next msgs1 false false true

/-- The result value of one `run` call: the `{final, result}` shape
(the `messages` field of the source return value lives in `RunTrace`). -/
structure RunResult where
  final : Bool
  result : Option JsonValue
deriving DecidableEq, Repr

deriving instance DecidableEq for Except

/-- One `run` call's observable outcome: the returned value (or the
propagated model-invocation error), the Conversation State left behind,
and instrumentation counters — model invocations attempted, steps whose
directive was a tool call, tool functions invoked, steps with no
directive. -/
structure RunTrace where
  outcome : Except String RunResult
  messages : List Message
  modelCalls : Nat
  toolDirSteps : Nat
  toolInvocations : Nat
  noneSteps : Nat
deriving DecidableEq, Repr

/-- The step loop of `run`: `for (let step = 0; step < maxSteps; step++)`.
`remaining` is the number of iterations left, `k` the number of model
invocations made so far (across this `run` call), and the last four
arguments accumulate the counters. -/
def runLoop (model : ModelFn) (registry : String → Option ToolFn) (fs : FsOracle) :
    Nat → Nat → List Message → Nat → Nat → Nat → Nat → RunTrace
  | 0, _, msgs, mc, td, ti, ns =>
    ⟨.ok ⟨false, none⟩, msgs, mc, td, ti, ns⟩
  | remaining + 1, k, msgs, mc, td, ti, ns =>
    match model k msgs with
    | .error e => ⟨.error e, msgs, mc + 1, td, ti, ns⟩
    | .ok c =>
      let msgs1 := msgs ++ [Message.ai c]
      match processDirective registry fs msgs1 (extractJsonChars (flattenContent c).data) with
      | .finish result msgs2 => ⟨.ok ⟨true, result⟩, msgs2, mc + 1, td, ti, ns⟩
      | .next msgs2 toolDir invoked wasNone =>
        runLoop model registry fs remaining (k + 1) msgs2 (mc + 1)
          (td + if toolDir then 1 else 0) (ti + if invoked then 1 else 0)
          (ns + if wasNone then 1 else 0)

/-- `WebsiteCloneAgent.run(userInput)`: seed the Conversation State with
the system message when empty, append the user input, then iterate the
step loop at most `maxSteps` times (`maxSteps.toNat` iterations — a
non-positive `maxSteps` runs the `for` loop zero times). -/
def WebsiteCloneAgent.run (model : ModelFn) (registry : String → Option ToolFn)
    (fs : FsOracle) (maxSteps : Int) (systemPrompt : String)
    (messages : List Message) (userInput : String) : RunTrace :=
  let msgs0 := if messages.isEmpty then [Message.system systemPrompt] else messages
  runLoop model registry fs maxSteps.toNat 0 (msgs0 ++ [Message.humanStr userInput]) 0 0 0 0


/-! ## Concrete collaborators used to exercise the theorems on closed inputs -/

/-- A filesystem oracle on which no screenshot file exists. -/
def fsTriv : FsOracle := ⟨fun _ => false, fun _ => none⟩

/-- A registry with no tools. -/
def emptyRegistry : String → Option ToolFn := fun _ => none

/-- A scripted model that always answers plain prose. -/
def proseModel : ModelFn := fun _ _ => .ok (.str "Let me think about this.")

/-- A scripted model that answers prose once, then throws. -/
def throwModel : ModelFn := fun k _ =>
  if k = 0 then .ok (.str "Let me think about this.") else .error "boom"

/-- A scripted model that always requests an unregistered tool. -/
def bogusToolModel : ModelFn := fun _ _ => .ok (.str "\x7b\"tool\":\"bogus.tool\"\x7d")

/-- A scripted model that always requests `page.extract`. -/
def pageToolModel : ModelFn := fun _ _ => .ok (.str "\x7b\"tool\":\"page.extract\"\x7d")

/-- A registry whose only tool, `page.extract`, always throws. -/
def failRegistry : String → Option ToolFn := fun n =>
  if n = "page.extract" then some (fun _ => .error "connection refused") else none

/-- A registry whose only tool, `page.extract`, succeeds with a string. -/
def okRegistry : String → Option ToolFn := fun n =>
  if n = "page.extract" then some (fun _ => .ok (.str "html")) else none

/-- External tool collaborators that all succeed trivially (never reached
by the scenarios below). -/
def extTriv : ExternalTools :=
  ⟨fun _ => .ok .null, fun _ => .ok .null, fun _ => .ok .null, fun _ => .ok .null,
   fun _ => .ok .null, fun _ => .ok .null, fun _ => .ok .null, fun _ => .ok .null,
   fun _ => .ok .null, fun _ => .ok .null, fun _ => .ok .null, fun _ => .ok .null⟩

/-- A scripted model that always requests the tool name `toString`. -/
def protoToolModel : ModelFn := fun _ _ => .ok (.str "\x7b\"tool\":\"toString\"\x7d")

/-- A scripted model that requests `page.extract` once, then emits a Final
directive. -/
def cloneModel : ModelFn := fun k _ =>
  if k = 0 then
    .ok (.str "\x7b\"tool\":\"page.extract\",\"params\":\x7b\"url\":\"https://example.com\"\x7d,\"id\":\"s1\"\x7d")
  else .ok (.str "\x7b\"final\":true,\"summary\":\"done\",\"artifacts\":[\"index.html\"]\x7d")

/-- The parsed Final payload of `cloneModel`'s second reply. -/
def cloneFinal : JsonValue :=
  .obj (.cons "final" (.bool true) (.cons "summary" (.str "done")
    (.cons "artifacts" (.arr (.cons (.str "index.html") .nil)) .nil)))

/-! ## Loop lemmas -/

theorem runLoop_zero (model : ModelFn) (registry : String → Option ToolFn) (fs : FsOracle)
    (k : Nat) (msgs : List Message) (mc td ti ns : Nat) :
    runLoop model registry fs 0 k msgs mc td ti ns
      = ⟨.ok ⟨false, none⟩, msgs, mc, td, ti, ns⟩ := rfl

theorem runLoop_succ_err {model : ModelFn} (registry : String → Option ToolFn) (fs : FsOracle)
    {k : Nat} {msgs : List Message} {e : String} (r mc td ti ns : Nat)
    (hm : model k msgs = .error e) :
    runLoop model registry fs (r + 1) k msgs mc td ti ns
      = ⟨.error e, msgs, mc + 1, td, ti, ns⟩ := by
  simp only [runLoop, hm]

theorem runLoop_succ_finish {model : ModelFn} {registry : String → Option ToolFn}
    {fs : FsOracle} {k : Nat} {msgs : List Message} {c : ModelContent}
    {res : Option JsonValue} {m2 : List Message} (r mc td ti ns : Nat)
    (hm : model k msgs = .ok c)
    (hpd : processDirective registry fs (msgs ++ [Message.ai c])
      (extractJsonChars (flattenContent c).data) = .finish res m2) :
    runLoop model registry fs (r + 1) k msgs mc td ti ns
      = ⟨.ok ⟨true, res⟩, m2, mc + 1, td, ti, ns⟩ := by
  simp only [runLoop, hm, hpd]

theorem runLoop_succ_next {model : ModelFn} {registry : String → Option ToolFn}
    {fs : FsOracle} {k : Nat} {msgs : List Message} {c : ModelContent}
    {m2 : List Message} {tdb ivb nsb : Bool} (r mc td ti ns : Nat)
    (hm : model k msgs = .ok c)
    (hpd : processDirective registry fs (msgs ++ [Message.ai c])
      (extractJsonChars (flattenContent c).data) = .next m2 tdb ivb nsb) :
    runLoop model registry fs (r + 1) k msgs mc td ti ns
      = runLoop model registry fs r (k + 1) m2 (mc + 1)
          (td + if tdb then 1 else 0) (ti + if ivb then 1 else 0)
          (ns + if nsb then 1 else 0) := by
  simp only [runLoop, hm, hpd]

theorem processDirective_finish_spec {registry : String → Option ToolFn} {fs : FsOracle}
    {msgs1 : List Message} {json res : Option JsonValue} {m2 : List Message}
    (h : processDirective registry fs msgs1 json = .finish res m2) :
    m2 = msgs1 ∧ res = json ∧ isFinalDirective json = true := by
  unfold processDirective at h
  split at h
  · injection h with h1 h2
    exact ⟨h2.symm, h1.symm, by assumption⟩
  · split at h
    · split at h
      · simp at h
      · split at h <;> simp at h
    · simp at h

theorem processDirective_next_spec {registry : String → Option ToolFn} {fs : FsOracle}
    {msgs1 : List Message} {json : Option JsonValue} {m2 : List Message}
    {tdb ivb nsb : Bool}
    (h : processDirective registry fs msgs1 json = .next m2 tdb ivb nsb) :
    (tdb = true ∧ nsb = false ∧ ∃ x, m2 = msgs1 ++ [x])
      ∨ (tdb = false ∧ nsb = true ∧ m2 = msgs1) := by
  unfold processDirective at h
  split at h
  · simp at h
  · split at h
    · split at h
      · injection h with h1 h2 h3 h4
        exact Or.inl ⟨h2.symm, h4.symm, _, h1.symm⟩
      · split at h <;>
          (injection h with h1 h2 h3 h4; exact Or.inl ⟨h2.symm, h4.symm, _, h1.symm⟩)
    · injection h with h1 h2 h3 h4
      exact Or.inr ⟨h2.symm, h4.symm, h1.symm⟩

theorem processDirective_none (registry : String → Option ToolFn) (fs : FsOracle)
    (msgs1 : List Message) :
    processDirective registry fs msgs1 none = .next msgs1 false false true := rfl

theorem runLoop_modelCalls_le (model : ModelFn) (registry : String → Option ToolFn)
    (fs : FsOracle) :
    ∀ r k msgs mc td ti ns,
      (runLoop model registry fs r k msgs mc td ti ns).modelCalls ≤ mc + r := by
  intro r
  induction r with
  | zero => intro k msgs mc td ti ns; rw [runLoop_zero]; dsimp only; omega
  | succ r ih =>
    intro k msgs mc td ti ns
    rcases hm : model k msgs with e | c
    · rw [runLoop_succ_err registry fs r mc td ti ns hm]
      dsimp only
      omega
    · rcases hpd : processDirective registry fs (msgs ++ [Message.ai c])
          (extractJsonChars (flattenContent c).data) with ⟨res2, m2⟩ | ⟨m2, tdb, ivb, nsb⟩
      · rw [runLoop_succ_finish r mc td ti ns hm hpd]
        dsimp only
        omega
      · rw [runLoop_succ_next r mc td ti ns hm hpd]
        have := ih (k + 1) m2 (mc + 1) (td + if tdb then 1 else 0)
          (ti + if ivb then 1 else 0) (ns + if nsb then 1 else 0)
        omega

theorem runLoop_len_invariant (model : ModelFn) (registry : String → Option ToolFn)
    (fs : FsOracle) :
    ∀ r k msgs mc td ti ns res,
      (runLoop model registry fs r k msgs mc td ti ns).outcome = .ok res →
      (runLoop model registry fs r k msgs mc td ti ns).messages.length + mc + td
        = msgs.length + (runLoop model registry fs r k msgs mc td ti ns).modelCalls
            + (runLoop model registry fs r k msgs mc td ti ns).toolDirSteps := by
  intro r
  induction r with
  | zero => intro k msgs mc td ti ns res _; rw [runLoop_zero]
  | succ r ih =>
    intro k msgs mc td ti ns res hres
    rcases hm : model k msgs with e | c
    · rw [runLoop_succ_err registry fs r mc td ti ns hm] at hres
      exact absurd hres (by simp)
    · rcases hpd : processDirective registry fs (msgs ++ [Message.ai c])
          (extractJsonChars (flattenContent c).data) with ⟨res2, m2⟩ | ⟨m2, tdb, ivb, nsb⟩
      · obtain ⟨hm2, -, -⟩ := processDirective_finish_spec hpd
        rw [runLoop_succ_finish r mc td ti ns hm hpd]
        subst hm2
        dsimp only
        simp only [List.length_append, List.length_cons, List.length_nil]
        omega
      · rw [runLoop_succ_next r mc td ti ns hm hpd] at hres ⊢
        have hlen := ih (k + 1) m2 (mc + 1) (td + if tdb then 1 else 0)
          (ti + if ivb then 1 else 0) (ns + if nsb then 1 else 0) res hres
        rcases processDirective_next_spec hpd with ⟨h1, -, x, hx⟩ | ⟨h1, -, hx⟩
        · subst hx; subst h1
          simp at hlen ⊢
          omega
        · subst hx; subst h1
          simp at hlen ⊢
          omega

theorem runLoop_cnt_invariant (model : ModelFn) (registry : String → Option ToolFn)
    (fs : FsOracle) :
    ∀ r k msgs mc td ti ns res,
      (runLoop model registry fs r k msgs mc td ti ns).outcome = .ok res →
      (runLoop model registry fs r k msgs mc td ti ns).modelCalls + td + ns
        = mc + (runLoop model registry fs r k msgs mc td ti ns).toolDirSteps
            + (runLoop model registry fs r k msgs mc td ti ns).noneSteps
            + (if res.final then 1 else 0) := by
  intro r
  induction r with
  | zero =>
    intro k msgs mc td ti ns res hres
    rw [runLoop_zero] at hres ⊢
    dsimp only at hres ⊢
    injection hres with h
    subst h
    simp
  | succ r ih =>
    intro k msgs mc td ti ns res hres
    rcases hm : model k msgs with e | c
    · rw [runLoop_succ_err registry fs r mc td ti ns hm] at hres
      exact absurd hres (by simp)
    · rcases hpd : processDirective registry fs (msgs ++ [Message.ai c])
          (extractJsonChars (flattenContent c).data) with ⟨res2, m2⟩ | ⟨m2, tdb, ivb, nsb⟩
      · rw [runLoop_succ_finish r mc td ti ns hm hpd] at hres ⊢
        dsimp only at hres ⊢
        injection hres with h
        subst h
        simp
        omega
      · rw [runLoop_succ_next r mc td ti ns hm hpd] at hres ⊢
        have hcnt := ih (k + 1) m2 (mc + 1) (td + if tdb then 1 else 0)
          (ti + if ivb then 1 else 0) (ns + if nsb then 1 else 0) res hres
        rcases processDirective_next_spec hpd with ⟨h1, h2, -⟩ | ⟨h1, h2, -⟩
        · subst h1; subst h2
          simp at hcnt ⊢
          omega
        · subst h1; subst h2
          simp at hcnt ⊢
          omega

theorem runLoop_messages_extend (model : ModelFn) (registry : String → Option ToolFn)
    (fs : FsOracle) :
    ∀ r k msgs mc td ti ns,
      ∃ rest, (runLoop model registry fs r k msgs mc td ti ns).messages = msgs ++ rest := by
  intro r
  induction r with
  | zero => intro k msgs mc td ti ns; exact ⟨[], by rw [runLoop_zero]; simp⟩
  | succ r ih =>
    intro k msgs mc td ti ns
    rcases hm : model k msgs with e | c
    · exact ⟨[], by rw [runLoop_succ_err registry fs r mc td ti ns hm]; simp⟩
    · rcases hpd : processDirective registry fs (msgs ++ [Message.ai c])
          (extractJsonChars (flattenContent c).data) with ⟨res2, m2⟩ | ⟨m2, tdb, ivb, nsb⟩
      · obtain ⟨hm2, -, -⟩ := processDirective_finish_spec hpd
        exact ⟨[Message.ai c], by
          rw [runLoop_succ_finish r mc td ti ns hm hpd]; dsimp only; rw [hm2]⟩
      · obtain ⟨rest, hrest⟩ := ih (k + 1) m2 (mc + 1) (td + if tdb then 1 else 0)
          (ti + if ivb then 1 else 0) (ns + if nsb then 1 else 0)
        rw [runLoop_succ_next r mc td ti ns hm hpd]
        rcases processDirective_next_spec hpd with ⟨-, -, x, hx⟩ | ⟨-, -, hx⟩
        · subst hx
          refine ⟨Message.ai c :: x :: rest, ?_⟩
          rw [hrest]
          simp
        · subst hx
          refine ⟨Message.ai c :: rest, ?_⟩
          rw [hrest]
          simp

theorem runLoop_shapes (model : ModelFn) (registry : String → Option ToolFn)
    (fs : FsOracle) :
    ∀ r k msgs mc td ti ns res,
      (runLoop model registry fs r k msgs mc td ti ns).outcome = .ok res →
      (res.final = true ∧ ∃ j, res.result = some j ∧
          getField j "final" = some (JsonValue.bool true))
        ∨ (res.final = false ∧ res.result = none) := by
  intro r
  induction r with
  | zero =>
    intro k msgs mc td ti ns res hres
    rw [runLoop_zero] at hres
    dsimp only at hres
    injection hres with h
    subst h
    exact Or.inr ⟨rfl, rfl⟩
  | succ r ih =>
    intro k msgs mc td ti ns res hres
    rcases hm : model k msgs with e | c
    · rw [runLoop_succ_err registry fs r mc td ti ns hm] at hres
      exact absurd hres (by simp)
    · rcases hpd : processDirective registry fs (msgs ++ [Message.ai c])
          (extractJsonChars (flattenContent c).data) with ⟨res2, m2⟩ | ⟨m2, tdb, ivb, nsb⟩
      · obtain ⟨-, hres2, hfin⟩ := processDirective_finish_spec hpd
        rw [runLoop_succ_finish r mc td ti ns hm hpd] at hres
        dsimp only at hres
        injection hres with h
        subst h
        subst hres2
        refine Or.inl ⟨rfl, ?_⟩
        unfold isFinalDirective at hfin
        rcases hj : extractJsonChars (flattenContent c).data with - | v
        · rw [hj] at hfin; simp at hfin
        · rw [hj] at hfin
          simp only [Bool.and_eq_true, decide_eq_true_eq] at hfin
          exact ⟨v, rfl, hfin.2⟩
      · rw [runLoop_succ_next r mc td ti ns hm hpd] at hres
        exact ih (k + 1) m2 (mc + 1) (td + if tdb then 1 else 0)
          (ti + if ivb then 1 else 0) (ns + if nsb then 1 else 0) res hres

theorem runLoop_all_none (model : ModelFn) (registry : String → Option ToolFn)
    (fs : FsOracle) :
    ∀ r k msgs mc td ti ns,
      (∀ j msgsj, j < r → ∃ c, model (k + j) msgsj = .ok c ∧
          extractJsonChars (flattenContent c).data = none) →
      ∃ ms, runLoop model registry fs r k msgs mc td ti ns
        = ⟨.ok ⟨false, none⟩, ms, mc + r, td, ti, ns + r⟩ := by
  intro r
  induction r with
  | zero => intro k msgs mc td ti ns _; exact ⟨msgs, by rw [runLoop_zero]; simp⟩
  | succ r ih =>
    intro k msgs mc td ti ns hscript
    obtain ⟨c, hm, hext⟩ := hscript 0 msgs (Nat.succ_pos r)
    rw [Nat.add_zero] at hm
    have hpd : processDirective registry fs (msgs ++ [Message.ai c])
        (extractJsonChars (flattenContent c).data)
        = .next (msgs ++ [Message.ai c]) false false true := by
      rw [hext]
      exact processDirective_none registry fs _
    rw [runLoop_succ_next r mc td ti ns hm hpd]
    have e0 : (td + if false then 1 else 0) = td := by simp
    have e1 : (ti + if false then 1 else 0) = ti := by simp
    have e2 : (ns + if true then 1 else 0) = ns + 1 := by simp
    rw [e0, e1, e2]
    obtain ⟨ms, hms⟩ := ih (k + 1) (msgs ++ [Message.ai c]) (mc + 1) td ti (ns + 1)
      (fun j msgsj hj => by
        have h := hscript (j + 1) msgsj (by omega)
        have harith : k + (j + 1) = k + 1 + j := by omega
        rwa [harith] at h)
    refine ⟨ms, ?_⟩
    rw [hms]
    have e3 : mc + 1 + r = mc + (r + 1) := by omega
    have e4 : ns + 1 + r = ns + (r + 1) := by omega
    rw [e3, e4]

/-- Unfolding of `WebsiteCloneAgent.run` into the step loop. -/
theorem WebsiteCloneAgent.run_def (model : ModelFn) (registry : String → Option ToolFn)
    (fs : FsOracle) (maxSteps : Int) (sp : String) (msgs : List Message) (input : String) :
    WebsiteCloneAgent.run model registry fs maxSteps sp msgs input
      = runLoop model registry fs maxSteps.toNat 0
          ((if msgs.isEmpty then [Message.system sp] else msgs) ++ [Message.humanStr input])
          0 0 0 0 := rfl

/-! ## Claim theorems -/

/-- Claim C2: every `run` call performs at most `maxSteps` model
invocations; with a scripted model that never produces a parseable JSON
directive, `run` terminates after exactly `maxSteps` model invocations and
zero tool invocations and returns `{final: false, result: null}`. -/
theorem run_step_budget :
    (∀ (model : ModelFn) (registry : String → Option ToolFn) (fs : FsOracle)
        (maxSteps : Int) (sp : String) (msgs : List Message) (input : String),
      (WebsiteCloneAgent.run model registry fs maxSteps sp msgs input).modelCalls
        ≤ maxSteps.toNat)
    ∧ ∀ (model : ModelFn) (registry : String → Option ToolFn) (fs : FsOracle)
        (maxSteps : Int) (sp : String) (msgs : List Message) (input : String),
        (∀ j msgsj, j < maxSteps.toNat → ∃ c, model j msgsj = .ok c ∧
            extractJsonChars (flattenContent c).data = none) →
        (WebsiteCloneAgent.run model registry fs maxSteps sp msgs input).modelCalls
            = maxSteps.toNat
        ∧ (WebsiteCloneAgent.run model registry fs maxSteps sp msgs input).toolInvocations = 0
        ∧ (WebsiteCloneAgent.run model registry fs maxSteps sp msgs input).outcome
            = .ok ⟨false, none⟩ := by
  constructor
  · intro model registry fs maxSteps sp msgs input
    rw [WebsiteCloneAgent.run_def]
    simpa using runLoop_modelCalls_le model registry fs maxSteps.toNat 0
      ((if msgs.isEmpty then [Message.system sp] else msgs) ++ [Message.humanStr input]) 0 0 0 0
  · intro model registry fs maxSteps sp msgs input h
    obtain ⟨ms, hms⟩ := runLoop_all_none model registry fs maxSteps.toNat 0
      ((if msgs.isEmpty then [Message.system sp] else msgs) ++ [Message.humanStr input]) 0 0 0 0
      (fun j msgsj hj => by rw [Nat.zero_add]; exact h j msgsj hj)
    rw [WebsiteCloneAgent.run_def, hms]
    exact ⟨by simp, rfl, rfl⟩

/-- Claim C2, witness: a model scripted to reply `"Let me think about this."`
every turn, with `maxSteps = 2`. -/
theorem run_step_budget_witness :
    (WebsiteCloneAgent.run proseModel emptyRegistry fsTriv 2 "sys" [] "hi").modelCalls
        ≤ (2 : Int).toNat
    ∧ (WebsiteCloneAgent.run proseModel emptyRegistry fsTriv 2 "sys" [] "hi").modelCalls
        = (2 : Int).toNat
      ∧ (WebsiteCloneAgent.run proseModel emptyRegistry fsTriv 2 "sys" [] "hi").toolInvocations = 0
      ∧ (WebsiteCloneAgent.run proseModel emptyRegistry fsTriv 2 "sys" [] "hi").outcome
          = .ok ⟨false, none⟩ :=
  ⟨run_step_budget.1 proseModel emptyRegistry fsTriv 2 "sys" [] "hi",
   run_step_budget.2 proseModel emptyRegistry fsTriv 2 "sys" [] "hi"
     (fun _ _ _ => ⟨.str "Let me think about this.", rfl, by decide⟩)⟩

/-- Claim C3: when a parsed JSON object carries both `final: true` and a
`tool` property, classification yields the Final variant (Final takes
priority over ToolCall). -/
theorem final_priority_over_tool (fields : JsonFields) (tv : JsonValue)
    (hf : getField (JsonValue.obj fields) "final" = some (JsonValue.bool true))
    (_ht : getField (JsonValue.obj fields) "tool" = some tv) :
    directiveOfJson (some (JsonValue.obj fields)) = .final (JsonValue.obj fields) := by
  have hfin : isFinalDirective (some (JsonValue.obj fields)) = true := by
    unfold isFinalDirective truthy
    simp [hf]
  simp only [directiveOfJson, hfin, if_true]

/-- Claim C3, witness: `{"final": true, "tool": "page.extract"}`. -/
theorem final_priority_over_tool_witness :
    directiveOfJson (some (JsonValue.obj (.cons "final" (.bool true)
        (.cons "tool" (.str "page.extract") .nil))))
      = .final (JsonValue.obj (.cons "final" (.bool true)
        (.cons "tool" (.str "page.extract") .nil))) :=
  final_priority_over_tool _ (JsonValue.str "page.extract") (by decide) (by decide)

/-- A name that is neither a registry entry nor an `Object.prototype`
member resolves to `undefined` at the lookup `this.toolRegistry[tool]`. -/
theorem buildToolRegistry_eq_none (ext : ExternalTools) (name : String)
    (h1 : name ∉ registryNames) (h2 : name ∉ objectProtoNames) :
    buildToolRegistry ext name = none := by
  have hne : ∀ s, s ∈ registryNames → ¬(name = s) := fun s hs heq => h1 (heq ▸ hs)
  unfold buildToolRegistry
  rw [if_neg (hne "page.extract" (by decide)), if_neg (hne "shots.capture" (by decide)),
    if_neg (hne "files.read" (by decide)), if_neg (hne "files.readMany" (by decide)),
    if_neg (hne "files.write" (by decide)), if_neg (hne "files.search" (by decide)),
    if_neg (hne "files.replace" (by decide)), if_neg (hne "files.exists" (by decide)),
    if_neg (hne "fs.list" (by decide)), if_neg (hne "fs.glob" (by decide)),
    if_neg (hne "fs.globWithStats" (by decide)), if_neg (hne "system.run" (by decide)),
    if_neg h2]

/-- Claim C5, counterexample: the claim fails for tool names inherited from
`Object.prototype`.  `toString` is not present in the registry, yet the
lookup `this.toolRegistry[tool]` is truthy (the inherited
`Object.prototype.toString`), so the unknown-tool branch is skipped: a
tool function IS invoked (`toolInvocations = 1`) and no corrective
message is appended — the step records an `ok: true` result message
instead. -/
theorem unknown_tool_step_counterexample :
    "toString" ∉ registryNames
    ∧ (buildToolRegistry extTriv "toString").isSome = true
    ∧ (runLoop protoToolModel (buildToolRegistry extTriv) fsTriv 1 0 [] 0 0 0 0).toolInvocations
        = 1
    ∧ Message.humanText "Tool not found: toString. Please choose a valid tool."
        ∉ (runLoop protoToolModel (buildToolRegistry extTriv) fsTriv 1 0 [] 0 0 0 0).messages
    ∧ (runLoop protoToolModel (buildToolRegistry extTriv) fsTriv 1 0 [] 0 0 0 0).messages
        = [Message.ai (ModelContent.str "\x7b\"tool\":\"toString\"\x7d"),
           Message.humanText
             "\x7b\n  \"tool\": \"toString\",\n  \"ok\": true,\n  \"result\": \"[object Undefined]\"\n\x7d"] := by
  refine ⟨by decide, by decide, by decide, by decide, by decide⟩

/-- Claim C5 (amended): a step whose directive is a ToolCall naming a tool
that is neither a registry entry nor an `Object.prototype` member name
(which the lookup `this.toolRegistry[tool]` would reach through the
prototype chain) invokes no tool function (`toolInvocations` unchanged),
appends exactly one corrective user message after the recorded assistant
reply, consumes one unit of the step budget, and continues the loop. -/
theorem unknown_tool_step (model : ModelFn) (ext : ExternalTools)
    (fs : FsOracle) (r k mc td ti ns : Nat) (msgs : List Message)
    (c : ModelContent) (j tv : JsonValue)
    (hm : model k msgs = .ok c)
    (hj : extractJsonChars (flattenContent c).data = some j)
    (hfin : isFinalDirective (some j) = false)
    (htool : toolRequestOf (some j) = some tv)
    (hname : jsToString tv ∉ registryNames)
    (hproto : jsToString tv ∉ objectProtoNames) :
    runLoop model (buildToolRegistry ext) fs (r + 1) k msgs mc td ti ns
      = runLoop model (buildToolRegistry ext) fs r (k + 1)
          (msgs ++ [Message.ai c, Message.humanText ("Tool not found: " ++ jsToString tv
            ++ ". Please choose a valid tool.")])
          (mc + 1) (td + 1) ti ns := by
  have hreg := buildToolRegistry_eq_none ext (jsToString tv) hname hproto
  have hpd : processDirective (buildToolRegistry ext) fs (msgs ++ [Message.ai c])
      (extractJsonChars (flattenContent c).data)
      = .next ((msgs ++ [Message.ai c]) ++ [Message.humanText ("Tool not found: "
          ++ jsToString tv ++ ". Please choose a valid tool.")]) true false false := by
    rw [hj]
    unfold processDirective
    rw [if_neg (by rw [hfin]; exact Bool.false_ne_true), htool]
    dsimp only
    rw [hreg]
  rw [runLoop_succ_next r mc td ti ns hm hpd]
  simp

/-- Claim C5 (amended), witness: the model requests `bogus.tool`, a name
found neither in the registry nor on `Object.prototype`. -/
theorem unknown_tool_step_witness :
    runLoop bogusToolModel (buildToolRegistry extTriv) fsTriv 2 0 [] 0 0 0 0
      = runLoop bogusToolModel (buildToolRegistry extTriv) fsTriv 1 1
          [Message.ai (ModelContent.str "\x7b\"tool\":\"bogus.tool\"\x7d"),
           Message.humanText "Tool not found: bogus.tool. Please choose a valid tool."]
          1 1 0 0 :=
  unknown_tool_step bogusToolModel extTriv fsTriv 1 0 0 0 0 0 []
    (ModelContent.str "\x7b\"tool\":\"bogus.tool\"\x7d")
    (JsonValue.obj (.cons "tool" (.str "bogus.tool") .nil)) (JsonValue.str "bogus.tool")
    rfl (by decide) (by decide) (by decide) (by decide) (by decide)

/-- Claim C6: a step whose registered tool function throws never aborts
the loop: the error message is captured into exactly one corrective user
message naming the tool and the error, the step consumes one unit of the
step budget, and the loop proceeds to the next model invocation. -/
theorem tool_failure_step (model : ModelFn) (registry : String → Option ToolFn)
    (fs : FsOracle) (r k mc td ti ns : Nat) (msgs : List Message)
    (c : ModelContent) (j tv : JsonValue) (f : ToolFn) (err : String)
    (hm : model k msgs = .ok c)
    (hj : extractJsonChars (flattenContent c).data = some j)
    (hfin : isFinalDirective (some j) = false)
    (htool : toolRequestOf (some j) = some tv)
    (hreg : registry (jsToString tv) = some f)
    (hfail : f (paramsOf j) = .error err) :
    runLoop model registry fs (r + 1) k msgs mc td ti ns
      = runLoop model registry fs r (k + 1)
          (msgs ++ [Message.ai c, Message.humanText ("Tool " ++ jsToString tv
            ++ " failed: " ++ err)])
          (mc + 1) (td + 1) (ti + 1) ns := by
  have hpd : processDirective registry fs (msgs ++ [Message.ai c])
      (extractJsonChars (flattenContent c).data)
      = .next ((msgs ++ [Message.ai c]) ++ [Message.humanText ("Tool " ++ jsToString tv
          ++ " failed: " ++ err)]) true true false := by
    rw [hj]
    unfold processDirective
    rw [if_neg (by rw [hfin]; exact Bool.false_ne_true), htool]
    dsimp only
    rw [hreg]
    dsimp only
    rw [hfail]
  rw [runLoop_succ_next r mc td ti ns hm hpd]
  simp

/-- Claim C6, witness: `page.extract` is registered but throws
`connection refused`. -/
theorem tool_failure_step_witness :
    runLoop pageToolModel failRegistry fsTriv 2 0 [] 0 0 0 0
      = runLoop pageToolModel failRegistry fsTriv 1 1
          [Message.ai (ModelContent.str "\x7b\"tool\":\"page.extract\"\x7d"),
           Message.humanText "Tool page.extract failed: connection refused"]
          1 1 1 0 :=
  tool_failure_step pageToolModel failRegistry fsTriv 1 0 0 0 0 0 []
    (ModelContent.str "\x7b\"tool\":\"page.extract\"\x7d")
    (JsonValue.obj (.cons "tool" (.str "page.extract") .nil)) (JsonValue.str "page.extract")
    (fun _ => .error "connection refused") "connection refused"
    rfl (by decide) (by decide) (by decide) rfl rfl

/-- Claim C7: on a first run (empty session) that returns without a model
error and with no None steps, the Conversation State length is
1 (system) + 1 (user input) + 2 × (tool-call steps) + 1 more when the run
ended in a Final reply; and a None step appends nothing beyond the
assistant reply already recorded. -/
theorem conversation_length_formula :
    (∀ (model : ModelFn) (registry : String → Option ToolFn) (fs : FsOracle)
        (maxSteps : Int) (sp input : String) (res : RunResult),
      (WebsiteCloneAgent.run model registry fs maxSteps sp [] input).outcome = .ok res →
      (WebsiteCloneAgent.run model registry fs maxSteps sp [] input).noneSteps = 0 →
      (WebsiteCloneAgent.run model registry fs maxSteps sp [] input).messages.length
        = 2 + 2 * (WebsiteCloneAgent.run model registry fs maxSteps sp [] input).toolDirSteps
            + (if res.final then 1 else 0))
    ∧ ∀ (model : ModelFn) (registry : String → Option ToolFn) (fs : FsOracle)
        (r k mc td ti ns : Nat) (msgs : List Message) (c : ModelContent),
        model k msgs = .ok c →
        extractJsonChars (flattenContent c).data = none →
        runLoop model registry fs (r + 1) k msgs mc td ti ns
          = runLoop model registry fs r (k + 1) (msgs ++ [Message.ai c])
              (mc + 1) td ti (ns + 1) := by
  constructor
  · intro model registry fs maxSteps sp input res hres hns
    have hlen := runLoop_len_invariant model registry fs maxSteps.toNat 0
      [Message.system sp, Message.humanStr input] 0 0 0 0 res hres
    have hcnt := runLoop_cnt_invariant model registry fs maxSteps.toNat 0
      [Message.system sp, Message.humanStr input] 0 0 0 0 res hres
    have hns' : (runLoop model registry fs maxSteps.toNat 0
        [Message.system sp, Message.humanStr input] 0 0 0 0).noneSteps = 0 := hns
    show (runLoop model registry fs maxSteps.toNat 0
        [Message.system sp, Message.humanStr input] 0 0 0 0).messages.length
      = 2 + 2 * (runLoop model registry fs maxSteps.toNat 0
          [Message.system sp, Message.humanStr input] 0 0 0 0).toolDirSteps
        + (if res.final then 1 else 0)
    simp only [List.length_cons, List.length_nil] at hlen
    omega
  · intro model registry fs r k mc td ti ns msgs c hm hext
    have hpd : processDirective registry fs (msgs ++ [Message.ai c])
        (extractJsonChars (flattenContent c).data)
        = .next (msgs ++ [Message.ai c]) false false true := by
      rw [hext]
      exact processDirective_none registry fs _
    rw [runLoop_succ_next r mc td ti ns hm hpd]
    simp

/-- Claim C7, witness: the two-step clone scenario (one successful tool
call, then a Final reply), and a concrete None step. -/
theorem conversation_length_formula_witness :
    ((WebsiteCloneAgent.run cloneModel okRegistry fsTriv 20 "sys" [] "clone example.com").messages.length
        = 2 + 2 * (WebsiteCloneAgent.run cloneModel okRegistry fsTriv 20 "sys" []
            "clone example.com").toolDirSteps
          + (if (⟨true, some cloneFinal⟩ : RunResult).final then 1 else 0))
    ∧ runLoop proseModel emptyRegistry fsTriv 1 0 [] 0 0 0 0
        = runLoop proseModel emptyRegistry fsTriv 0 1
            [Message.ai (ModelContent.str "Let me think about this.")] 1 0 0 1 :=
  ⟨conversation_length_formula.1 cloneModel okRegistry fsTriv 20 "sys" "clone example.com"
      ⟨true, some cloneFinal⟩ (by decide) (by decide),
   conversation_length_formula.2 proseModel emptyRegistry fsTriv 0 0 0 0 0 0 []
      (ModelContent.str "Let me think about this.") rfl (by decide)⟩

/-- Claim C8: a `run` call that returns (rather than propagating a model
error) returns either `{final: true, result: j}` for a payload `j` with
`final: true`, or `{final: false, result: null}` — the only two shapes. -/
theorem run_return_shapes (model : ModelFn) (registry : String → Option ToolFn)
    (fs : FsOracle) (maxSteps : Int) (sp : String) (msgs : List Message)
    (input : String) (res : RunResult)
    (hres : (WebsiteCloneAgent.run model registry fs maxSteps sp msgs input).outcome
      = .ok res) :
    (res.final = true ∧ ∃ j, res.result = some j ∧
        getField j "final" = some (JsonValue.bool true))
      ∨ (res.final = false ∧ res.result = none) :=
  runLoop_shapes model registry fs maxSteps.toNat 0
    ((if msgs.isEmpty then [Message.system sp] else msgs) ++ [Message.humanStr input])
    0 0 0 0 res hres

/-- Claim C8, witness: a zero-budget run returns `{final: false, result: null}`. -/
theorem run_return_shapes_witness :
    ((⟨false, none⟩ : RunResult).final = true ∧ ∃ j, (⟨false, none⟩ : RunResult).result = some j ∧
        getField j "final" = some (JsonValue.bool true))
      ∨ ((⟨false, none⟩ : RunResult).final = false ∧ (⟨false, none⟩ : RunResult).result = none) :=
  run_return_shapes proseModel emptyRegistry fsTriv 0 "sys" [] "hi" ⟨false, none⟩ rfl

/-- Claim C9, counterexample: the claim's inference "a zero-step budget
cannot be configured" fails — `maxSteps: -1` is not falsy, so it is kept,
and the `for` loop then runs zero times: a configured agent performs zero
model invocations. -/
theorem zero_budget_configurable_counterexample :
    WebsiteCloneAgent.maxStepsOf (some (-1)) = -1
    ∧ (WebsiteCloneAgent.run proseModel emptyRegistry fsTriv
        (WebsiteCloneAgent.maxStepsOf (some (-1))) "sys" [] "hi").modelCalls = 0
    ∧ (WebsiteCloneAgent.run proseModel emptyRegistry fsTriv
        (WebsiteCloneAgent.maxStepsOf (some (-1))) "sys" [] "hi").outcome
        = .ok ⟨false, none⟩ := by
  exact ⟨rfl, rfl, rfl⟩

/-- Claim C9 (amended): every falsy `maxSteps` option (absent, or the
explicit value `0`) yields the default budget of 20, so `{maxSteps: 0}`
still allows up to 20 model invocations; a zero-step budget remains
configurable through a negative value such as `-1`. -/
theorem falsy_maxsteps_default :
    WebsiteCloneAgent.maxStepsOf none = 20
    ∧ WebsiteCloneAgent.maxStepsOf (some 0) = 20
    ∧ ∀ (model : ModelFn) (registry : String → Option ToolFn) (fs : FsOracle)
        (sp : String) (msgs : List Message) (input : String),
        (WebsiteCloneAgent.run model registry fs (WebsiteCloneAgent.maxStepsOf (some 0))
          sp msgs input).modelCalls ≤ 20 := by
  refine ⟨rfl, rfl, ?_⟩
  intro model registry fs sp msgs input
  rw [WebsiteCloneAgent.run_def]
  simpa using runLoop_modelCalls_le model registry fs
    (WebsiteCloneAgent.maxStepsOf (some 0)).toNat 0
    ((if msgs.isEmpty then [Message.system sp] else msgs) ++ [Message.humanStr input]) 0 0 0 0

/-- The loop up to a throwing model invocation: `kk` directive-free steps,
then the `kk`-th invocation throws; the error propagates and the messages
appended so far are retained. -/
theorem runLoop_throw (model : ModelFn) (registry : String → Option ToolFn)
    (fs : FsOracle) (e : String) (c : Nat → ModelContent) :
    ∀ kk r k msgs mc td ti ns, kk < r →
      (∀ j msgsj, j < kk → model (k + j) msgsj = .ok (c (k + j))) →
      (∀ j, j < kk → extractJsonChars (flattenContent (c (k + j))).data = none) →
      (∀ msgsj, model (k + kk) msgsj = .error e) →
      runLoop model registry fs r k msgs mc td ti ns
        = ⟨.error e, msgs ++ (List.range kk).map (fun j => Message.ai (c (k + j))),
            mc + kk + 1, td, ti, ns + kk⟩ := by
  intro kk
  induction kk with
  | zero =>
    intro r k msgs mc td ti ns hr _ _ hthrow
    match r, hr with
    | r' + 1, _ =>
      have hm : model k msgs = .error e := by
        have := hthrow msgs
        rwa [Nat.add_zero] at this
      rw [runLoop_succ_err registry fs r' mc td ti ns hm]
      simp
  | succ kk ih =>
    intro r k msgs mc td ti ns hr hbefore hnone hthrow
    match r, hr with
    | r' + 1, _ =>
      have hm : model k msgs = .ok (c k) := by
        have := hbefore 0 msgs (Nat.succ_pos kk)
        rwa [Nat.add_zero] at this
      have hext : extractJsonChars (flattenContent (c k)).data = none := by
        have := hnone 0 (Nat.succ_pos kk)
        rwa [Nat.add_zero] at this
      have hpd : processDirective registry fs (msgs ++ [Message.ai (c k)])
          (extractJsonChars (flattenContent (c k)).data)
          = .next (msgs ++ [Message.ai (c k)]) false false true := by
        rw [hext]
        exact processDirective_none registry fs _
      rw [runLoop_succ_next r' mc td ti ns hm hpd]
      have e0 : (td + if false then 1 else 0) = td := by simp
      have e1 : (ti + if false then 1 else 0) = ti := by simp
      have e2 : (ns + if true then 1 else 0) = ns + 1 := by simp
      rw [e0, e1, e2]
      have hrec := ih r' (k + 1) (msgs ++ [Message.ai (c k)]) (mc + 1) td ti (ns + 1)
        (by omega)
        (fun j msgsj hj => by
          have h := hbefore (j + 1) msgsj (by omega)
          have harith : k + (j + 1) = k + 1 + j := by omega
          rwa [harith] at h)
        (fun j hj => by
          have h := hnone (j + 1) (by omega)
          have harith : k + (j + 1) = k + 1 + j := by omega
          rwa [harith] at h)
        (fun msgsj => by
          have h := hthrow msgsj
          have harith : k + (kk + 1) = k + 1 + kk := by omega
          rwa [harith] at h)
      rw [hrec]
      have hmsgs : (msgs ++ [Message.ai (c k)])
            ++ (List.range kk).map (fun j => Message.ai (c (k + 1 + j)))
          = msgs ++ (List.range (kk + 1)).map (fun j => Message.ai (c (k + j))) := by
        rw [List.range_succ_eq_map, List.map_cons, List.map_map]
        have hfun : ((fun j => Message.ai (c (k + j))) ∘ Nat.succ)
            = (fun j => Message.ai (c (k + 1 + j))) := by
          funext j
          simp only [Function.comp]
          congr 2
          omega
        rw [hfun]
        simp
      rw [hmsgs]
      have e3 : mc + 1 + kk + 1 = mc + (kk + 1) + 1 := by omega
      have e4 : ns + 1 + kk = ns + (kk + 1) := by omega
      rw [e3, e4]

/-- Claim C10: when the model collaborator throws at step `k` of a first
run (after `k` directive-free replies), the exception propagates out of
`run` and the Conversation State is not rolled back — it retains the
system message, the user input and the assistant replies of the earlier
steps — so a subsequent `run` on the same state appends a second user
message on top of the unanswered one. -/
theorem model_throw_propagates (model : ModelFn) (registry : String → Option ToolFn)
    (fs : FsOracle) (n k : Nat) (sp input e : String) (c : Nat → ModelContent)
    (t : RunTrace)
    (hk : k < n)
    (hbefore : ∀ j msgsj, j < k → model j msgsj = .ok (c j))
    (hnone : ∀ j, j < k → extractJsonChars (flattenContent (c j)).data = none)
    (hthrow : ∀ msgsj, model k msgsj = .error e)
    (ht : t = WebsiteCloneAgent.run model registry fs (Int.ofNat n) sp [] input) :
    t.outcome = .error e
    ∧ t.messages = [Message.system sp, Message.humanStr input]
        ++ (List.range k).map (fun j => Message.ai (c j))
    ∧ ∀ (model2 : ModelFn) (registry2 : String → Option ToolFn) (fs2 : FsOracle)
        (n2 : Int) (sp2 input2 : String), ∃ rest,
        (WebsiteCloneAgent.run model2 registry2 fs2 n2 sp2 t.messages input2).messages
          = t.messages ++ Message.humanStr input2 :: rest := by
  have hrun : t = ⟨.error e, [Message.system sp, Message.humanStr input]
      ++ (List.range k).map (fun j => Message.ai (c j)), 0 + k + 1, 0, 0, 0 + k⟩ := by
    rw [ht, WebsiteCloneAgent.run_def]
    have htn : (Int.ofNat n).toNat = n := rfl
    rw [htn]
    have h := runLoop_throw model registry fs e c k n 0
      [Message.system sp, Message.humanStr input] 0 0 0 0 hk
      (fun j msgsj hj => by rw [Nat.zero_add]; exact hbefore j msgsj hj)
      (fun j hj => by rw [Nat.zero_add]; exact hnone j hj)
      (fun msgsj => by rw [Nat.zero_add]; exact hthrow msgsj)
    have hfun : (fun j => Message.ai (c (0 + j))) = (fun j => Message.ai (c j)) := by
      funext j
      rw [Nat.zero_add]
    rw [hfun] at h
    exact h
  refine ⟨by rw [hrun], by rw [hrun], ?_⟩
  intro model2 registry2 fs2 n2 sp2 input2
  have hne : t.messages.isEmpty = false := by rw [hrun]; rfl
  rw [WebsiteCloneAgent.run_def, hne]
  simp only [Bool.false_eq_true, if_false]
  obtain ⟨rest, hrest⟩ := runLoop_messages_extend model2 registry2 fs2 n2.toNat 0
    (t.messages ++ [Message.humanStr input2]) 0 0 0 0
  exact ⟨rest, by rw [hrest]; simp⟩

/-- Claim C10, witness: a model that answers prose once and throws on its
second invocation, with `maxSteps = 3`, starting from an empty session. -/
theorem model_throw_propagates_witness :
    (WebsiteCloneAgent.run throwModel emptyRegistry fsTriv (Int.ofNat 3) "sys" [] "hi").outcome
        = .error "boom"
    ∧ (WebsiteCloneAgent.run throwModel emptyRegistry fsTriv (Int.ofNat 3) "sys" [] "hi").messages
        = [Message.system "sys", Message.humanStr "hi"]
          ++ (List.range 1).map (fun _ => Message.ai (ModelContent.str "Let me think about this."))
    ∧ ∀ (model2 : ModelFn) (registry2 : String → Option ToolFn) (fs2 : FsOracle)
        (n2 : Int) (sp2 input2 : String), ∃ rest,
        (WebsiteCloneAgent.run model2 registry2 fs2 n2 sp2
            (WebsiteCloneAgent.run throwModel emptyRegistry fsTriv (Int.ofNat 3) "sys" [] "hi").messages
            input2).messages
          = (WebsiteCloneAgent.run throwModel emptyRegistry fsTriv (Int.ofNat 3) "sys" [] "hi").messages
            ++ Message.humanStr input2 :: rest :=
  model_throw_propagates throwModel emptyRegistry fsTriv 3 1 "sys" "hi" "boom"
    (fun _ => ModelContent.str "Let me think about this.") _
    (by omega)
    (fun j _ hj => by
      have hj0 : j = 0 := by omega
      subst hj0
      rfl)
    (fun j hj => by
      have hj0 : j = 0 := by omega
      subst hj0
      decide)
    (fun _ => rfl)
    rfl

/-! ## String lemmas for the extractor -/

theorem dropWhile_append_stop (p : Char → Bool) (a : List Char) (b0 : Char) (bt : List Char)
    (h : p b0 = false) :
    (a ++ b0 :: bt).dropWhile p = a.dropWhile p ++ b0 :: bt := by
  induction a with
  | nil => simp [List.dropWhile_cons, h]
  | cons x a' ih =>
    by_cases hx : p x = true
    · simp [List.dropWhile_cons, hx, ih]
    · simp [List.dropWhile_cons, hx]

theorem dropWhile_append_all (p : Char → Bool) (a l : List Char)
    (h : ∀ x ∈ a, p x = true) :
    (a ++ l).dropWhile p = l.dropWhile p := by
  induction a with
  | nil => simp
  | cons x a' ih =>
    have hx : p x = true := h x (by simp)
    simp only [List.cons_append, List.dropWhile_cons, hx, if_true]
    exact ih (fun y hy => h y (by simp [hy]))

theorem trimLeftChars_append (a : List Char) (b0 : Char) (rest : List Char)
    (h : isJsWs b0 = false) :
    trimLeftChars (a ++ b0 :: rest) = trimLeftChars a ++ b0 :: rest :=
  dropWhile_append_stop isJsWs a b0 rest h

theorem trimRightChars_append (a : List Char) (z0 : Char) (d : List Char)
    (h : isJsWs z0 = false) :
    trimRightChars (a ++ z0 :: d) = a ++ z0 :: trimRightChars d := by
  unfold trimRightChars
  have hrev : (a ++ z0 :: d).reverse = d.reverse ++ z0 :: a.reverse := by
    simp
  rw [hrev, dropWhile_append_stop isJsWs d.reverse z0 a.reverse h]
  simp

theorem jsTrim_decompose (pre : List Char) (b0 : Char) (mid : List Char) (z0 : Char)
    (suf : List Char) (h0 : isJsWs b0 = false) (hz : isJsWs z0 = false) :
    jsTrim (pre ++ b0 :: mid ++ z0 :: suf)
      = trimLeftChars pre ++ b0 :: mid ++ z0 :: trimRightChars suf := by
  unfold jsTrim
  have h1 : trimLeftChars (pre ++ b0 :: (mid ++ z0 :: suf))
      = trimLeftChars pre ++ b0 :: (mid ++ z0 :: suf) :=
    trimLeftChars_append pre b0 (mid ++ z0 :: suf) h0
  have harr : pre ++ b0 :: mid ++ z0 :: suf = pre ++ b0 :: (mid ++ z0 :: suf) := by simp
  rw [harr, h1]
  have harr2 : trimLeftChars pre ++ b0 :: (mid ++ z0 :: suf)
      = (trimLeftChars pre ++ b0 :: mid) ++ z0 :: suf := by simp
  rw [harr2, trimRightChars_append (trimLeftChars pre ++ b0 :: mid) z0 suf hz]

theorem mem_trimLeftChars {x : Char} {l : List Char} (h : x ∈ trimLeftChars l) : x ∈ l :=
  (List.dropWhile_sublist isJsWs).subset h

theorem mem_trimRightChars {x : Char} {l : List Char} (h : x ∈ trimRightChars l) : x ∈ l := by
  unfold trimRightChars at h
  rw [List.mem_reverse] at h
  have := (List.dropWhile_sublist isJsWs).subset h
  rwa [List.mem_reverse] at this

theorem startsWith_append_self (p x : List Char) : startsWith p (p ++ x) = true := by
  induction p with
  | nil => rfl
  | cons c p' ih => simp [startsWith, ih]

theorem fenceTryAt_no_tick (x : Char) (l : List Char) (hx : x ≠ '`') :
    fenceTryAt (x :: l) = none := by
  unfold fenceTryAt
  rw [if_neg]
  simp only [startsWith, Bool.and_eq_true, beq_iff_eq]
  intro hcontra
  exact hx hcontra.1.symm

theorem fenceFind_append_no_tick (a rest : List Char) (ha : ∀ x ∈ a, x ≠ '`') :
    fenceFind (a ++ rest) = fenceFind rest := by
  induction a with
  | nil => simp
  | cons x a' ih =>
    have hx : x ≠ '`' := ha x (by simp)
    simp only [List.cons_append]
    rw [show fenceFind (x :: (a' ++ rest))
        = match fenceTryAt (x :: (a' ++ rest)) with
          | some inner => some inner
          | none => fenceFind (a' ++ rest) from rfl]
    rw [fenceTryAt_no_tick x (a' ++ rest) hx]
    exact ih (fun y hy => ha y (by simp [hy]))

theorem fenceFind_eq_none (l : List Char) (h : ∀ x ∈ l, x ≠ '`') :
    fenceFind l = none := by
  have := fenceFind_append_no_tick l [] h
  simpa using this

theorem hasSub_cons_false {pat : List Char} {c : Char} {t : List Char}
    (h : hasSub pat (c :: t) = false) :
    startsWith pat (c :: t) = false ∧ hasSub pat t = false := by
  rw [show hasSub pat (c :: t) = (startsWith pat (c :: t) || hasSub pat t) from rfl] at h
  exact ⟨by cases hs : startsWith pat (c :: t) <;> simp_all,
         by cases hs : hasSub pat t <;> simp_all⟩

theorem startsWith_nlTicks_suffix_false (c : Char) (J' X : List Char)
    (hsw : startsWith nlTicks (c :: J') = false) :
    startsWith nlTicks (c :: (J' ++ '\n' :: '`' :: '`' :: '`' :: X)) = false := by
  match J' with
  | [] =>
    simp [startsWith, nlTicks, show (('`' : Char) == '\n') = false from rfl]
  | [d] =>
    simp [startsWith, nlTicks, show (('`' : Char) == '\n') = false from rfl]
  | [d, e2] =>
    simp [startsWith, nlTicks, show (('`' : Char) == '\n') = false from rfl]
  | d :: e2 :: f2 :: J'' =>
    simpa [startsWith, nlTicks] using hsw

theorem findClose_append (J suf : List Char) (h : hasSub nlTicks J = false) :
    findClose (J ++ '\n' :: '`' :: '`' :: '`' :: suf) = some (J, suf) := by
  induction J with
  | nil =>
    simp only [List.nil_append]
    rw [show findClose ('\n' :: '`' :: '`' :: '`' :: suf)
        = if startsWith nlTicks ('\n' :: '`' :: '`' :: '`' :: suf)
          then some ([], ('\n' :: '`' :: '`' :: '`' :: suf).drop 4)
          else (findClose ('`' :: '`' :: '`' :: suf)).map
            (fun p => ('\n' :: p.1, p.2)) from rfl]
    have hsw : startsWith nlTicks ('\n' :: '`' :: '`' :: '`' :: suf) = true :=
      startsWith_append_self nlTicks suf
    rw [if_pos hsw]
    rfl
  | cons c J' ih =>
    obtain ⟨hsw, hsub⟩ := hasSub_cons_false h
    have hswX := startsWith_nlTicks_suffix_false c J' suf hsw
    simp only [List.cons_append]
    rw [show findClose (c :: (J' ++ '\n' :: '`' :: '`' :: '`' :: suf))
        = if startsWith nlTicks (c :: (J' ++ '\n' :: '`' :: '`' :: '`' :: suf))
          then some ([], (c :: (J' ++ '\n' :: '`' :: '`' :: '`' :: suf)).drop 4)
          else (findClose (J' ++ '\n' :: '`' :: '`' :: '`' :: suf)).map
            (fun p => (c :: p.1, p.2)) from rfl]
    rw [if_neg (by rw [hswX]; exact Bool.false_ne_true)]
    rw [ih hsub]
    rfl

theorem fenceTryAt_fence (tag J suf : List Char)
    (htag : ∀ x ∈ tag, isAsciiAlpha x = true)
    (hJ : hasSub nlTicks J = false) :
    fenceTryAt ('`' :: '`' :: '`' :: (tag ++ '\n' :: (J ++ '\n' :: '`' :: '`' :: '`' :: suf)))
      = some J := by
  unfold fenceTryAt
  have hsw : startsWith ['`', '`', '`']
      ('`' :: '`' :: '`' :: (tag ++ '\n' :: (J ++ '\n' :: '`' :: '`' :: '`' :: suf))) = true :=
    startsWith_append_self ['`', '`', '`'] _
  rw [if_pos hsw]
  rw [show ('`' :: '`' :: '`' :: (tag ++ '\n' :: (J ++ '\n' :: '`' :: '`' :: '`' :: suf))).drop 3
      = tag ++ '\n' :: (J ++ '\n' :: '`' :: '`' :: '`' :: suf) from rfl]
  rw [dropWhile_append_all isAsciiAlpha tag _ htag]
  rw [show ('\n' :: (J ++ '\n' :: '`' :: '`' :: '`' :: suf)).dropWhile isAsciiAlpha
      = '\n' :: (J ++ '\n' :: '`' :: '`' :: '`' :: suf) from by
    rw [List.dropWhile_cons]
    simp [isAsciiAlpha]]
  rw [show (match '\n' :: (J ++ '\n' :: '`' :: '`' :: '`' :: suf) with
      | c :: r3 => if c = '\n' then (findClose r3).map Prod.fst else none
      | [] => (none : Option (List Char)))
      = if '\n' = '\n' then ((findClose (J ++ '\n' :: '`' :: '`' :: '`' :: suf)).map Prod.fst)
        else none from rfl]
  rw [if_pos rfl, findClose_append J suf hJ]
  rfl

theorem fenceFind_at_fence (tag J suf : List Char)
    (htag : ∀ x ∈ tag, isAsciiAlpha x = true)
    (hJ : hasSub nlTicks J = false) :
    fenceFind ('`' :: '`' :: '`' :: (tag ++ '\n' :: (J ++ '\n' :: '`' :: '`' :: '`' :: suf)))
      = some J := by
  rw [show fenceFind ('`' :: '`' :: '`' :: (tag ++ '\n' :: (J ++ '\n' :: '`' :: '`' :: '`' :: suf)))
      = match fenceTryAt ('`' :: '`' :: '`' :: (tag ++ '\n' :: (J ++ '\n' :: '`' :: '`' :: '`' :: suf))) with
        | some inner => some inner
        | none => fenceFind ('`' :: '`' :: (tag ++ '\n' :: (J ++ '\n' :: '`' :: '`' :: '`' :: suf)))
      from rfl]
  rw [fenceTryAt_fence tag J suf htag hJ]

theorem idxOf?_append (a rest : List Char) (c : Char) (ha : ∀ x ∈ a, x ≠ c) :
    idxOf? c (a ++ c :: rest) = some a.length := by
  induction a with
  | nil => simp [idxOf?]
  | cons x a' ih =>
    have hx : x ≠ c := ha x (by simp)
    simp only [List.cons_append, idxOf?, if_neg hx, List.append_eq]
    rw [ih (fun y hy => ha y (by simp [hy]))]
    rfl

theorem lastIdxOf?_eq_none (rest : List Char) (c : Char) (h : ∀ x ∈ rest, x ≠ c) :
    lastIdxOf? c rest = none := by
  induction rest with
  | nil => rfl
  | cons x t ih =>
    have hx : x ≠ c := h x (by simp)
    simp only [lastIdxOf?]
    rw [ih (fun y hy => h y (by simp [hy]))]
    simp [hx]

theorem lastIdxOf?_append (a rest : List Char) (c : Char) (hrest : ∀ x ∈ rest, x ≠ c) :
    lastIdxOf? c (a ++ c :: rest) = some a.length := by
  induction a with
  | nil =>
    simp only [List.nil_append, lastIdxOf?]
    rw [lastIdxOf?_eq_none rest c hrest]
    simp
  | cons x a' ih =>
    simp only [List.cons_append, lastIdxOf?, List.append_eq]
    rw [ih]
    rfl

theorem extractJsonChars_parse (t : List Char) (v : JsonValue)
    (ht : t.isEmpty = false) (hf : fenceFind (jsTrim t) = none)
    (hp : Json.parseChars (jsTrim t) = some v) :
    extractJsonChars t = some v := by
  unfold extractJsonChars
  rw [if_neg (by rw [ht]; exact Bool.false_ne_true)]
  dsimp only
  rw [hf]
  dsimp only
  rw [hp]

theorem extractJsonChars_fence_parse (t inner : List Char) (v : JsonValue)
    (ht : t.isEmpty = false) (hf : fenceFind (jsTrim t) = some inner)
    (hp : Json.parseChars (jsTrim inner) = some v) :
    extractJsonChars t = some v := by
  unfold extractJsonChars
  rw [if_neg (by rw [ht]; exact Bool.false_ne_true)]
  dsimp only
  rw [hf]
  dsimp only
  rw [hp]

theorem extractJsonChars_fallback (t : List Char) (v : JsonValue) (s e : Nat)
    (ht : t.isEmpty = false) (hf : fenceFind (jsTrim t) = none)
    (hp : Json.parseChars (jsTrim t) = none)
    (hs : idxOf? '{' (jsTrim t) = some s)
    (he : lastIdxOf? '}' (jsTrim t) = some e)
    (hlt : s < e)
    (hsub : Json.parseChars (((jsTrim t).drop s).take (e + 1 - s)) = some v) :
    extractJsonChars t = some v := by
  unfold extractJsonChars
  rw [if_neg (by rw [ht]; exact Bool.false_ne_true)]
  dsimp only
  rw [hf]
  dsimp only
  rw [hp, hs, he]
  dsimp only
  rw [if_pos hlt, hsub]

theorem extractJsonChars_embedded (pre Jmid suf : List Char) (v : JsonValue)
    (hJ : Json.parseChars ('{' :: Jmid ++ ['}']) = some v)
    (hpre : ∀ x ∈ pre, x ≠ '{' ∧ x ≠ '}' ∧ x ≠ '`')
    (hsuf : ∀ x ∈ suf, x ≠ '{' ∧ x ≠ '}' ∧ x ≠ '`')
    (hJt : ∀ x ∈ Jmid, x ≠ '`')
    (hwhole : ∀ w, Json.parseChars (jsTrim (pre ++ '{' :: Jmid ++ '}' :: suf)) = some w → w = v) :
    extractJsonChars (pre ++ '{' :: Jmid ++ '}' :: suf) = some v := by
  have ht : (pre ++ '{' :: Jmid ++ '}' :: suf).isEmpty = false := by
    cases pre <;> rfl
  have hdec : jsTrim (pre ++ '{' :: Jmid ++ '}' :: suf)
      = trimLeftChars pre ++ '{' :: Jmid ++ '}' :: trimRightChars suf :=
    jsTrim_decompose pre '{' Jmid '}' suf (by decide) (by decide)
  have hT : ∀ x ∈ trimLeftChars pre ++ '{' :: Jmid ++ '}' :: trimRightChars suf, x ≠ '`' := by
    intro x hx
    simp only [List.mem_append, List.mem_cons] at hx
    rcases hx with (hx | hx | hx) | hx | hx
    · exact (hpre x (mem_trimLeftChars hx)).2.2
    · subst hx; decide
    · exact hJt x hx
    · subst hx; decide
    · exact (hsuf x (mem_trimRightChars hx)).2.2
  have hf : fenceFind (jsTrim (pre ++ '{' :: Jmid ++ '}' :: suf)) = none := by
    rw [hdec]
    exact fenceFind_eq_none _ hT
  rcases hp : Json.parseChars (jsTrim (pre ++ '{' :: Jmid ++ '}' :: suf)) with - | w
  · -- fallback path: locate the braces
    have hnb1 : ∀ x ∈ trimLeftChars pre, x ≠ '{' :=
      fun x hx => (hpre x (mem_trimLeftChars hx)).1
    have hnb2 : ∀ x ∈ trimRightChars suf, x ≠ '}' :=
      fun x hx => (hsuf x (mem_trimRightChars hx)).2.1
    have hs : idxOf? '{' (jsTrim (pre ++ '{' :: Jmid ++ '}' :: suf))
        = some (trimLeftChars pre).length := by
      rw [hdec]
      have hA : trimLeftChars pre ++ '{' :: Jmid ++ '}' :: trimRightChars suf
          = trimLeftChars pre ++ '{' :: (Jmid ++ '}' :: trimRightChars suf) := by simp
      rw [hA]
      exact idxOf?_append _ _ '{' hnb1
    have he : lastIdxOf? '}' (jsTrim (pre ++ '{' :: Jmid ++ '}' :: suf))
        = some ((trimLeftChars pre).length + Jmid.length + 1) := by
      rw [hdec]
      rw [lastIdxOf?_append (trimLeftChars pre ++ '{' :: Jmid) (trimRightChars suf) '}' hnb2]
      congr 1
      simp only [List.length_append, List.length_cons]
      omega
    have hslice : ((jsTrim (pre ++ '{' :: Jmid ++ '}' :: suf)).drop (trimLeftChars pre).length).take
        ((trimLeftChars pre).length + Jmid.length + 1 + 1 - (trimLeftChars pre).length)
        = '{' :: Jmid ++ ['}'] := by
      rw [hdec]
      have h1 : trimLeftChars pre ++ '{' :: Jmid ++ '}' :: trimRightChars suf
          = trimLeftChars pre ++ (('{' :: Jmid ++ ['}']) ++ trimRightChars suf) := by simp
      rw [h1, List.drop_left]
      have h2 : (trimLeftChars pre).length + Jmid.length + 1 + 1 - (trimLeftChars pre).length
          = ('{' :: Jmid ++ ['}']).length := by
        simp only [List.length_cons, List.length_append, List.length_nil]
        omega
      rw [h2, List.take_left]
    exact extractJsonChars_fallback _ v (trimLeftChars pre).length
      ((trimLeftChars pre).length + Jmid.length + 1) ht hf hp hs he (by omega)
      (by rw [hslice]; exact hJ)
  · -- the whole trimmed text parsed directly
    have hw : w = v := hwhole w hp
    subst hw
    exact extractJsonChars_parse _ w ht hf hp

theorem extract_fenced_wrap_core (pre tag J suf : List Char) (v : JsonValue)
    (hJ : Json.parseChars (jsTrim J) = some v)
    (hpre : ∀ x ∈ pre, x ≠ '`')
    (htag : ∀ x ∈ tag, isAsciiAlpha x = true)
    (hnl : hasSub nlTicks J = false) :
    extractJsonChars
        (pre ++ '`' :: '`' :: '`' :: (tag ++ '\n' :: (J ++ '\n' :: '`' :: '`' :: '`' :: suf)))
      = some v := by
  have ht : (pre ++ '`' :: '`' :: '`'
      :: (tag ++ '\n' :: (J ++ '\n' :: '`' :: '`' :: '`' :: suf))).isEmpty = false := by
    cases pre <;> rfl
  have htrim : jsTrim (pre ++ '`' :: '`' :: '`'
        :: (tag ++ '\n' :: (J ++ '\n' :: '`' :: '`' :: '`' :: suf)))
      = trimLeftChars pre ++ '`' :: '`' :: '`'
        :: (tag ++ '\n' :: (J ++ '\n' :: '`' :: '`' :: '`' :: trimRightChars suf)) := by
    unfold jsTrim
    rw [trimLeftChars_append pre '`' _ (by decide)]
    have hA : trimLeftChars pre ++ '`' :: '`' :: '`'
          :: (tag ++ '\n' :: (J ++ '\n' :: '`' :: '`' :: '`' :: suf))
        = (trimLeftChars pre ++ '`' :: '`' :: '`' :: tag ++ '\n' :: J ++ ['\n', '`', '`'])
          ++ '`' :: suf := by
      simp
    rw [hA, trimRightChars_append _ '`' suf (by decide)]
    simp
  have hfence : fenceFind (jsTrim (pre ++ '`' :: '`' :: '`'
        :: (tag ++ '\n' :: (J ++ '\n' :: '`' :: '`' :: '`' :: suf)))) = some J := by
    rw [htrim]
    rw [fenceFind_append_no_tick (trimLeftChars pre) _
      (fun x hx => hpre x (mem_trimLeftChars hx))]
    exact fenceFind_at_fence tag J (trimRightChars suf) htag hnl
  exact extractJsonChars_fence_parse _ J v ht hfence hJ

/-- Claim C4, counterexample: wrapping `{"a":1}` in a fenced block is not
transparent for arbitrary surrounding prose — prose that itself contains a
fenced block shadows the JSON one, and extraction yields nothing instead
of the object recovered from the bare text. -/
theorem fenced_wrap_counterexample :
    extractJsonObject "\x7b\"a\":1\x7d"
      = some (JsonValue.obj (.cons "a" (.num "1") .nil))
    ∧ extractJsonObject "```\nnote\n```\n```json\n\x7b\"a\":1\x7d\n```" = none := by
  exact ⟨by decide, by decide⟩

/-- Claim C4 (amended): for a valid JSON object text `J` (one that parses
after trimming, contains no fenced block and no `"\n```"` — both automatic
for valid JSON text), wrapped in a triple-backtick fence with an
alphabetic language tag, with arbitrary trailing prose and leading prose
free of backticks, the extractor recovers exactly the object it recovers
from the bare `J`. -/
theorem extract_fenced_wrap (pre tag J suf : List Char) (fields : JsonFields)
    (hJ : Json.parseChars (jsTrim J) = some (JsonValue.obj fields))
    (hJfence : fenceFind (jsTrim J) = none)
    (hnl : hasSub nlTicks J = false)
    (hpre : ∀ x ∈ pre, x ≠ '`')
    (htag : ∀ x ∈ tag, isAsciiAlpha x = true) :
    extractJsonChars
        (pre ++ '`' :: '`' :: '`' :: (tag ++ '\n' :: (J ++ '\n' :: '`' :: '`' :: '`' :: suf)))
      = some (JsonValue.obj fields)
    ∧ extractJsonChars J = some (JsonValue.obj fields) := by
  constructor
  · exact extract_fenced_wrap_core pre tag J suf (JsonValue.obj fields) hJ hpre htag hnl
  · cases J with
    | nil =>
      rw [show Json.parseChars (jsTrim []) = none from rfl] at hJ
      cases hJ
    | cons c J' =>
      exact extractJsonChars_parse (c :: J') (JsonValue.obj fields) rfl hJfence hJ

/-- Claim C4, witness: `{"a": 1}` fenced with tag `json`, prose on both
sides. -/
theorem extract_fenced_wrap_witness :
    extractJsonChars ("Sure: ".data ++ '`' :: '`' :: '`'
        :: ("json".data ++ '\n' :: ("\x7b\"a\": 1\x7d".data
          ++ '\n' :: '`' :: '`' :: '`' :: " done".data)))
      = some (JsonValue.obj (.cons "a" (.num "1") .nil))
    ∧ extractJsonChars "\x7b\"a\": 1\x7d".data
      = some (JsonValue.obj (.cons "a" (.num "1") .nil)) :=
  extract_fenced_wrap "Sure: ".data "json".data "\x7b\"a\": 1\x7d".data " done".data
    (.cons "a" (.num "1") .nil) (by decide) (by decide) (by decide) (by decide) (by decide)

/-- Claim C1, counterexample: classification is not by field presence
alone over arbitrary surrounding prose.  (i) The well-formed object
`{"tool":"x"}` (a `tool` property and no `final`) embedded in prose that
contains a stray `{` yields None, not ToolCall — the brace fallback grabs
the stray brace and fails to parse.  (ii) A present-but-falsy `tool`
property (`{"tool":""}`) also yields None, because the code tests
truthiness of `json.tool`, not presence. -/
theorem classify_embedded_object_counterexample :
    hasSub "\x7b\"tool\":\"x\"\x7d".data "see \x7b hi \x7b\"tool\":\"x\"\x7d".data = true
    ∧ Json.parse "\x7b\"tool\":\"x\"\x7d"
        = some (JsonValue.obj (.cons "tool" (.str "x") .nil))
    ∧ getField (JsonValue.obj (.cons "tool" (.str "x") .nil)) "tool"
        = some (JsonValue.str "x")
    ∧ getField (JsonValue.obj (.cons "tool" (.str "x") .nil)) "final" = none
    ∧ classifyText "see \x7b hi \x7b\"tool\":\"x\"\x7d".data = .none
    ∧ Json.parse "\x7b\"tool\":\"\"\x7d"
        = some (JsonValue.obj (.cons "tool" (.str "") .nil))
    ∧ classifyText "\x7b\"tool\":\"\"\x7d".data = .none := by
  refine ⟨by decide, by decide, by decide, by decide, by decide, by decide, by decide⟩

/-- Claim C1 (amended): for a single well-formed JSON object embedded in
prose that contains no braces and no backticks and does not combine with
the object into a different directly-parseable JSON document, the
Directive Extractor classifies by the object's fields: `final: true`
yields Final with the exact parsed object, a truthy `tool` property with
no `final` yields ToolCall, and neither field yields None. -/
theorem classify_embedded_object_amended (pre Jmid suf : List Char) (fields : JsonFields)
    (hJ : Json.parseChars ('{' :: Jmid ++ ['}']) = some (JsonValue.obj fields))
    (hpre : ∀ x ∈ pre, x ≠ '{' ∧ x ≠ '}' ∧ x ≠ '`')
    (hsuf : ∀ x ∈ suf, x ≠ '{' ∧ x ≠ '}' ∧ x ≠ '`')
    (hJt : ∀ x ∈ Jmid, x ≠ '`')
    (hwhole : ∀ w, Json.parseChars (jsTrim (pre ++ '{' :: Jmid ++ '}' :: suf)) = some w
      → w = JsonValue.obj fields) :
    (getField (JsonValue.obj fields) "final" = some (JsonValue.bool true) →
        classifyText (pre ++ '{' :: Jmid ++ '}' :: suf) = .final (JsonValue.obj fields))
    ∧ (getField (JsonValue.obj fields) "final" = none →
        ∀ tv, getField (JsonValue.obj fields) "tool" = some tv → truthy tv = true →
        classifyText (pre ++ '{' :: Jmid ++ '}' :: suf) = .toolCall (JsonValue.obj fields))
    ∧ (getField (JsonValue.obj fields) "final" = none →
        getField (JsonValue.obj fields) "tool" = none →
        classifyText (pre ++ '{' :: Jmid ++ '}' :: suf) = .none) := by
  have hx := extractJsonChars_embedded pre Jmid suf (JsonValue.obj fields) hJ hpre hsuf hJt hwhole
  unfold classifyText
  rw [hx]
  refine ⟨?_, ?_, ?_⟩
  · intro hf
    simp [directiveOfJson, isFinalDirective, hf,
      show truthy (JsonValue.obj fields) = true from rfl]
  · intro hf tv htv htruthy
    simp [directiveOfJson, isFinalDirective, toolRequestOf, hf, htv, htruthy,
      show truthy (JsonValue.obj fields) = true from rfl]
  · intro hf htool
    simp [directiveOfJson, isFinalDirective, toolRequestOf, hf, htool,
      show truthy (JsonValue.obj fields) = true from rfl]

/-- Claim C1 (amended), witness: `{"tool":"page.extract"}` embedded in
brace- and backtick-free prose classifies as ToolCall. -/
theorem classify_embedded_object_amended_witness :
    classifyText ("Use this: ".data ++ '{' :: "\"tool\":\"page.extract\"".data
        ++ '}' :: " now".data)
      = .toolCall (JsonValue.obj (.cons "tool" (.str "page.extract") .nil)) :=
  (classify_embedded_object_amended "Use this: ".data "\"tool\":\"page.extract\"".data
      " now".data (.cons "tool" (.str "page.extract") .nil)
      (by decide) (by decide) (by decide) (by decide)
      (fun w hw => by
        rw [show Json.parseChars (jsTrim ("Use this: ".data
            ++ '{' :: "\"tool\":\"page.extract\"".data ++ '}' :: " now".data))
          = none from by decide] at hw
        cases hw)).2.1
    (by decide) (JsonValue.str "page.extract") (by decide) (by decide)
